import Mathlib

set_option maxRecDepth 1000000

/-!
Simon game controller (`src/simon.c`).

A shallow embedding of the control loop of `simon.c` and theorems about it.

* C `int` globals are `Int`; the `unsigned int randVal` is a `Nat` reduced modulo `2 ^ 32`.
* `simonSequence` (an `int[MAX_ROUNDS]`) is a total map `Int → Int`; reads are applications and
  writes are `Function.update`.
* Hardware reads (`checkButtons()`, the volatile `timerTicked`) are supplied per loop iteration by
  an `Input` record; hardware writes are logged in the `out` field of the state.
* `srand`/`rand` and the packet helpers of `lab6_helper.h` are parameters collected in `Board`.
-/

namespace Simon

/-! ## Constants -/

/-- The LED frame `onTxPacket`. -/
def onTxPacket : List Nat :=
  [0x0000, 0x0000, 0xE5F0, 0x1010, 0xE510, 0x10F0, 0xE510, 0xF010, 0xE510, 0x0010, 0xFFFF, 0xFFFF]

/-- The all-off LED frame `offTxPacket`. -/
def offTxPacket : List Nat :=
  [0x0000, 0x0000, 0xE000, 0x0000, 0xE000, 0x0000, 0xE000, 0x0000, 0xE000, 0x0000, 0xFFFF, 0xFFFF]

def LOAD_G6 : Nat := 5101
def LOAD_E6 : Nat := 6063
def LOAD_D6 : Nat := 6800
def LOAD_C6 : Nat := 7643
def LOAD_G5 : Nat := 10206

def ANIM_DURATION : Int := 50
def PAUSE_TICKS : Int := 10
def MAX_ROUNDS : Int := 10
def INPUT_TIMEOUT_TICKS : Int := 200

/-! ## Data model -/

/-- The enum `GameState`. -/
inductive GameState where
  | STATE_PLAY_SONG
  | SIMON_GAME
  | SIMON_WIN
  | SIMON_LOSE
  deriving DecidableEq

open GameState

/-- One call into the peripheral layer, in program order. -/
inductive Out where
  | setTone (load : Nat)
  | enableBuzzer (enable : Int)
  | startSPITransmission (frame : List Nat)
  | waitForTicks (ticks : Int) (checkBtn : Int) (seen : Nat)
  deriving DecidableEq

/-- What `simon.c` uses but does not define: the C library generator (`srand`, `rand`, with
generator state `G`; `rand` returns a value in `0..RAND_MAX`, hence a `Nat`) and the two helpers
of `lab6_helper.h` that fill `txMessage`. -/
structure Board (G : Type) where
  srand : Nat → G
  rand : G → Nat × G
  generateTxPacket : Int → List Nat → List Nat
  displayPattern : Int → List Nat → List Nat

/-- The globals of `simon.c`, the generator state, and the log of peripheral calls. -/
structure State (G : Type) where
  txMessage : List Nat
  timerTicked : Bool
  simonSequence : Int → Int
  currentRound : Int
  playerInputIndex : Int
  simonSubState : Int
  inputTimeoutCounter : Int
  simon_prevButton : Int
  randVal : Nat
  powerOnPattern : Int
  currentState : GameState
  rng : G
  out : List Out

/-- What one iteration of `while (1)` reads from the hardware.
* `btn`: the result of `checkButtons()` at the top of the loop;
* `releaseReads`: the successive results of `checkButtons()` in `while(checkButtons() != 0) { }`;
* `waitBtn1`, `waitBtn2`: the button seen by the two interruptible waits of the power-on
  animation (`0` when the wait ran to its end);
* `gameBtn`: the result of `checkButtons()` inside `case SIMON_GAME`;
* `tick`: the value that `TIMG0_IRQHandler` (which sets the flag) and the tick-polling waits
  leave in the volatile `timerTicked` for the `simonSubState == 1` block: the value that
  `if (timerTicked)` reads, and the value the flag keeps when the block is left through a
  `break` before that test. -/
structure Input where
  btn : Nat
  releaseReads : List Nat
  waitBtn1 : Nat
  waitBtn2 : Nat
  gameBtn : Nat
  tick : Bool

variable {G : Type}

/-- The state of the globals at power-on (their C initialisers; the C library generator starts
as if seeded with 1). -/
def powerOn (P : Board G) : State G :=
  { txMessage := List.replicate 12 0
    timerTicked := false
    simonSequence := fun _ => 0
    currentRound := 1
    playerInputIndex := 0
    simonSubState := 0
    inputTimeoutCounter := 0
    simon_prevButton := 0
    randVal := 0
    powerOnPattern := 1
    currentState := STATE_PLAY_SONG
    rng := P.srand 1
    out := [] }

/-! ## Peripheral helpers (`lab6_helper.h`) -/

/-- Modelled from the spec: `setTone` of `lab6_helper.h` is not in `src/`; it sets the buzzer's
oscillation period (the tone part of `renderOutput`), recorded here as an output event. -/
def setTone (load : Nat) (s : State G) : State G :=
  { s with out := s.out ++ [Out.setTone load] }

/-- Modelled from the spec: `enableBuzzer` of `lab6_helper.h` is not in `src/`; it gates the
buzzer output (`setAudioEnabled`), recorded here as an output event. -/
def enableBuzzer (enable : Int) (s : State G) : State G :=
  { s with out := s.out ++ [Out.enableBuzzer enable] }

/-- Modelled from the spec: `startSPITransmission` of `lab6_helper.h` is not in `src/`; it
transfers one LED frame to the strip, recorded here as an output event carrying the frame. -/
def startSPITransmission (frame : List Nat) (s : State G) : State G :=
  { s with out := s.out ++ [Out.startSPITransmission frame] }

/-- Modelled from the spec: `waitForTicks` of `lab6_helper.h` is not in `src/`; it blocks for
`ticks` ticks by polling the tick flag and, when `checkBtn` is nonzero, returns early as soon as
a button is seen (`seen`, `0` for none). It owns none of the game variables, so it only leaves
an output event, which records the button that cut the wait short, if any. What its polling
leaves in the tick flag is part of what `Input.tick` reports. -/
def waitForTicks (ticks : Int) (checkBtn : Int) (seen : Nat) (s : State G) : State G :=
  { s with out := s.out ++ [Out.waitForTicks ticks checkBtn (if checkBtn ≠ 0 then seen else 0)] }

/-! ## `simon.c` -/

/-- The local table `tones` of `flashButton`. -/
def tones : List Nat := [0, LOAD_G6, LOAD_E6, LOAD_C6, LOAD_G5]

/-- The function `flashButton(btn, durationTicks)`. -/
def flashButton (P : Board G) (btn : Int) (durationTicks : Int) (s : State G) : State G :=
  let s := if 1 ≤ btn ∧ btn ≤ 4 then setTone (tones.getD btn.toNat 0) s else s
  let s := { s with txMessage := P.generateTxPacket btn s.txMessage }
  let s := startSPITransmission s.txMessage s
  let s := enableBuzzer 1 s
  let s := waitForTicks durationTicks 0 0 s
  let s := enableBuzzer 0 s
  let s := startSPITransmission offTxPacket s
  waitForTicks PAUSE_TICKS 0 0 s

/-- The function `displaySequence()`: `flashButton(simonSequence[i], 50)` for
`i = 0 .. currentRound - 1`. -/
def displaySequence (P : Board G) (s : State G) : State G :=
  (List.range s.currentRound.toNat).foldl
    (fun (s : State G) (i : Nat) => flashButton P (s.simonSequence (i : Int)) 50 s) s

/-- The inner `for (j ...)` loop of `playAnimation` together with the four fixed writes. -/
def animationFrame (isWin : Int) (tx : List Nat) : List Nat :=
  let tx := (List.range 4).foldl
    (fun (tx : List Nat) (j : Nat) =>
      if isWin ≠ 0 then
        (tx.set (2 + 2 * j) (onTxPacket.getD 2 0)).set (3 + 2 * j) (onTxPacket.getD 3 0)
      else
        (tx.set (2 + 2 * j) (onTxPacket.getD 4 0)).set (3 + 2 * j) (onTxPacket.getD 5 0)) tx
  (((tx.set 0 0x0000).set 1 0x0000).set 10 0xFFFF).set 11 0xFFFF

/-- One pass of the outer loop of `playAnimation`. -/
def animationPass (isWin : Int) (s : State G) : State G :=
  let s := { s with txMessage := animationFrame isWin s.txMessage }
  let s := if isWin ≠ 0 then setTone LOAD_E6 s else setTone LOAD_C6 s
  let s := enableBuzzer 1 s
  let s := startSPITransmission s.txMessage s
  let s := waitForTicks 50 0 0 s
  let s := enableBuzzer 0 s
  let s := startSPITransmission offTxPacket s
  waitForTicks PAUSE_TICKS 0 0 s

/-- The function `playAnimation(isWin)`. -/
def playAnimation (isWin : Int) (s : State G) : State G :=
  let s := (List.range 3).foldl (fun (s : State G) (_ : Nat) => animationPass isWin s) s
  { s with currentState := STATE_PLAY_SONG }

/-- The loop `while(checkButtons() != 0) { }` run on the given successive readings: it ends at
the first reading `0`, and does not end when there is none. -/
def waitRelease : List Nat → Option Unit
  | [] => none
  | r :: rs => if r ≠ 0 then waitRelease rs else some ()

/-- The local table `patternTones` of `case STATE_PLAY_SONG`. -/
def patternTones : List Nat := [0, LOAD_G6, LOAD_E6, LOAD_C6]

/-- The body of `case STATE_PLAY_SONG`. The result is `none` when the release loop never ends. -/
def playSongCase (P : Board G) (s : State G) (inp : Input) : Option (State G) :=
  let s := { s with randVal := (s.randVal + 1) % 2 ^ 32 }
  if inp.btn ≠ 0 then
    match waitRelease inp.releaseReads with
    | none => none
    | some () =>
      let s := { s with rng := P.srand s.randVal }
      let s := { s with currentState := SIMON_GAME }
      let s := { s with currentRound := 1 }
      let s := { s with playerInputIndex := 0 }
      let s := { s with simonSubState := 0 }
      let s := { s with inputTimeoutCounter := 0 }
      let r := P.rand s.rng
      let v : Int := ((r.1 % 4 : Nat) : Int) + 1
      let s := { s with simonSequence := Function.update s.simonSequence 0 v, rng := r.2 }
      some (enableBuzzer 0 s)
  else
    let s := { s with txMessage := P.displayPattern s.powerOnPattern s.txMessage }
    let s := setTone (patternTones.getD s.powerOnPattern.toNat 0) s
    let s := enableBuzzer 1 s
    let s := startSPITransmission s.txMessage s
    let s := waitForTicks ANIM_DURATION 1 inp.waitBtn1 s
    if s.currentState = SIMON_GAME then some s
    else
      let s := enableBuzzer 0 s
      let s := startSPITransmission offTxPacket s
      let s := waitForTicks PAUSE_TICKS 1 inp.waitBtn2 s
      if s.currentState = SIMON_GAME then some s
      else some { s with powerOnPattern := Int.tmod s.powerOnPattern 3 + 1 }

/-- The tail of the `simonSubState == 1` block: "Update the timeout counter" and the timeout
test. `inp.tick` is the value read from the volatile `timerTicked`. -/
def timeoutUpdate (s : State G) (inp : Input) : State G :=
  let s := { s with timerTicked := inp.tick }
  let s := if s.timerTicked then
      { s with inputTimeoutCounter := s.inputTimeoutCounter + 1, timerTicked := false }
    else s
  if s.inputTimeoutCounter > INPUT_TIMEOUT_TICKS then { s with currentState := SIMON_LOSE }
  else s

/-- The body of `case SIMON_GAME`. Every `break` that leaves the block early returns at once;
the other paths fall through to `timeoutUpdate`. The three `break`s of the
`simonSubState == 1` block come before the only statement of the loop that clears
`timerTicked`, so on them the flag keeps the value the interrupt handler gave it, `inp.tick`:
a pending tick stays pending. -/
def gameCase (P : Board G) (s : State G) (inp : Input) : State G :=
  if s.simonSubState = 0 then
    if inp.gameBtn ≠ 0 then s
    else
      let s := displaySequence P s
      { s with simonSubState := 1, playerInputIndex := 0, inputTimeoutCounter := 0,
               simon_prevButton := 0 }
  else if s.simonSubState = 1 then
    let currentButton : Int := inp.gameBtn
    if currentButton ≠ 0 then
      if s.simon_prevButton = 0 then
        let s := { s with simon_prevButton := currentButton }
        let s := flashButton P currentButton 20 s
        if currentButton ≠ s.simonSequence s.playerInputIndex then
          { s with currentState := SIMON_LOSE, timerTicked := inp.tick }
        else
          let s := { s with playerInputIndex := s.playerInputIndex + 1 }
          let s := { s with inputTimeoutCounter := 0 }
          if s.playerInputIndex ≥ s.currentRound then
            if s.currentRound ≥ MAX_ROUNDS then
              { s with currentState := SIMON_WIN, timerTicked := inp.tick }
            else
              let s := { s with currentRound := s.currentRound + 1 }
              let r := P.rand s.rng
              let v : Int := ((r.1 % 4 : Nat) : Int) + 1
              let s := { s with simonSequence := Function.update s.simonSequence
                                  (s.currentRound - 1) v,
                                rng := r.2 }
              let s := { s with simonSubState := 0 }
              let s := { s with simon_prevButton := 0 }
              timeoutUpdate s inp
          else timeoutUpdate s inp
      else if currentButton ≠ s.simon_prevButton then
        let s := { s with simon_prevButton := currentButton }
        let s := flashButton P currentButton 20 s
        if currentButton ≠ s.simonSequence s.playerInputIndex then
          { s with currentState := SIMON_LOSE, timerTicked := inp.tick }
        else timeoutUpdate s inp
      else timeoutUpdate s inp
    else
      timeoutUpdate { s with simon_prevButton := 0 } inp
  else s

/-- One iteration of the `while (1)` loop of `main`. -/
def step (P : Board G) (s : State G) (inp : Input) : Option (State G) :=
  match s.currentState with
  | STATE_PLAY_SONG => playSongCase P s inp
  | SIMON_GAME => some (gameCase P s inp)
  | SIMON_WIN => some (playAnimation 1 s)
  | SIMON_LOSE => some (playAnimation 0 s)

/-- Consecutive iterations of the loop, one per input. -/
def run (P : Board G) : State G → List Input → Option (State G)
  | s, [] => some s
  | s, inp :: rest =>
    match step P s inp with
    | none => none
    | some s' => run P s' rest

/-! ## Vocabulary of the claims -/

/-- The iteration accepts an input: the game waits for input, no button is registered as held,
a button is pressed, and it is the expected symbol `simonSequence[playerInputIndex]`. -/
def acceptsPress (s : State G) (inp : Input) : Prop :=
  s.simonSubState = 1 ∧ inp.gameBtn ≠ 0 ∧ s.simon_prevButton = 0 ∧
    (inp.gameBtn : Int) = s.simonSequence s.playerInputIndex

/-- The iteration completes the round: it is taken in `SIMON_GAME`, accepts an input, and that
input brings `playerInputIndex` up to `currentRound`. -/
def roundCompleted (s : State G) (inp : Input) : Prop :=
  s.currentState = SIMON_GAME ∧ acceptsPress s inp ∧ s.currentRound ≤ s.playerInputIndex + 1

/-- The tick flag of an input as a number. -/
def tickVal (inp : Input) : Nat := if inp.tick then 1 else 0

/-- The number of iterations of the run in which a button is pressed. -/
def pressCount : List Input → Nat
  | [] => 0
  | inp :: rest => (if inp.gameBtn ≠ 0 then 1 else 0) + pressCount rest

/-- Every press of the run is a fresh one: the iteration before it saw no button. `pressed`
tells whether the iteration before the run saw a button. -/
def freshPresses : Bool → List Input → Bool
  | _, [] => true
  | pressed, inp :: rest =>
    (inp.gameBtn == 0 || !pressed) && freshPresses (inp.gameBtn != 0) rest

/-- Between two presses of the run at most `limit` ticks are pending: the ticks are counted
from the iteration of a press (whose own tick comes after the press is handled) up to the
iteration before the next press; `c` is the count carried into the run. -/
def ticksWithin (limit : Nat) : Nat → List Input → Bool
  | _, [] => true
  | c, inp :: rest =>
    if inp.gameBtn ≠ 0 then ticksWithin limit (tickVal inp) rest
    else decide (c + tickVal inp ≤ limit) && ticksWithin limit (c + tickVal inp) rest

/-- Every press of the run, at the iteration where it is read, is the expected symbol
`simonSequence[playerInputIndex]`. -/
def followsSequence (P : Board G) : State G → List Input → Bool
  | _, [] => true
  | s, inp :: rest =>
    (inp.gameBtn == 0 || decide ((inp.gameBtn : Int) = s.simonSequence s.playerInputIndex)) &&
      (match step P s inp with
       | some s' => followsSequence P s' rest
       | none => true)

/-- The position of a game that has gone well so far: the game is on in a round `1..10`;
either the sequence is about to be displayed, after a press, with `k` the number of presses of
the rounds before; or input is awaited, with `k` those presses plus `playerInputIndex`, the
timeout counter is at most the `c` ticks seen since the last press, and no button is
registered as held when the iteration before saw none (`pressed = false`). -/
def PlayInv (s : State G) (pressed : Bool) (c : Nat) (k : Nat) : Prop :=
  s.currentState = SIMON_GAME ∧ 1 ≤ s.currentRound ∧ s.currentRound ≤ MAX_ROUNDS ∧
  ((s.simonSubState = 0 ∧ pressed = true ∧
      2 * (k : Int) = s.currentRound * (s.currentRound - 1)) ∨
   (s.simonSubState = 1 ∧ 0 ≤ s.playerInputIndex ∧ s.playerInputIndex < s.currentRound ∧
      s.inputTimeoutCounter ≤ c ∧ (pressed = false → s.simon_prevButton = 0) ∧
      2 * (k : Int) = s.currentRound * (s.currentRound - 1) + 2 * s.playerInputIndex))

/-- The last iteration of the run is one in which a button is pressed. -/
def endsWithPress : List Input → Bool
  | [] => false
  | [inp] => inp.gameBtn != 0
  | _ :: inp :: rest => endsWithPress (inp :: rest)

/-- Every read of the buttons made during the iteration returns `b`. -/
def constReads (b : Nat) (inp : Input) : Prop :=
  inp.btn = b ∧ inp.gameBtn = b ∧ inp.waitBtn1 = b ∧ inp.waitBtn2 = b ∧
    ∀ r ∈ inp.releaseReads, r = b

/-- The number of iterations of the run at which a tick is pending. -/
def tickCount : List Input → Nat
  | [] => 0
  | inp :: rest => tickVal inp + tickCount rest

/-- The states the program can be in at the top of the `while (1)` loop: the power-on state
and every state that completed iterations lead to, whatever the hardware reads return. -/
inductive Reachable (P : Board G) : State G → Prop where
  | init : Reachable P (powerOn P)
  | next {s s' : State G} {inp : Input} :
      Reachable P s → step P s inp = some s' → Reachable P s'

/-- The generator state after `srand(seed)` and `n` calls of `rand()`. -/
def genState (P : Board G) (seed : Nat) : Nat → G
  | 0 => P.srand seed
  | n + 1 => (P.rand (genState P seed n)).2

/-- The `(i + 1)`-th output of the generator since `srand(seed)`. -/
def genOutput (P : Board G) (seed : Nat) (i : Nat) : Nat :=
  (P.rand (genState P seed i)).1

/-- The symbol made of the `(i + 1)`-th output: `(rand() % 4) + 1`. -/
def symbolAt (P : Board G) (seed : Nat) (i : Nat) : Int :=
  ((genOutput P seed i % 4 : Nat) : Int) + 1

/-- An iteration of the power-on animation in which no read of the buttons sees a press. -/
def noButtonSeen (inp : Input) : Prop :=
  inp.btn = 0 ∧ inp.waitBtn1 = 0 ∧ inp.waitBtn2 = 0

/-- The round-robin successor of the idle pattern index: 1, 2, 3, 1, ... -/
def nextPattern (p : Int) : Int :=
  if p = 1 then 2 else if p = 2 then 3 else 1

/-- The function `checkButtons()`: `buttons` is the word read from `GPIOA->DIN31_0`; the masks
`SW1 .. SW4` of `lab6_helper.h` are parameters. -/
def checkButtons (SW1 SW2 SW3 SW4 : Nat) (buttons : Nat) : Nat :=
  if buttons &&& SW1 = 0 then 1
  else if buttons &&& SW2 = 0 then 2
  else if buttons &&& SW3 = 0 then 3
  else if buttons &&& SW4 = 0 then 4
  else 0

/-- The peripheral calls of one `flashButton(btn, d)` when `txMessage` holds `tx` at entry. -/
def flashEvents (P : Board G) (btn d : Int) (tx : List Nat) : List Out :=
  (if 1 ≤ btn ∧ btn ≤ 4 then [Out.setTone (tones.getD btn.toNat 0)] else []) ++
    [Out.startSPITransmission (P.generateTxPacket btn tx), Out.enableBuzzer 1,
      Out.waitForTicks d 0 0, Out.enableBuzzer 0, Out.startSPITransmission offTxPacket,
      Out.waitForTicks PAUSE_TICKS 0 0]

/-- The concatenation of the calls of `flashButton(seq[i], 50)` for the indices `i` of the
list, in order; `tx` is `txMessage` before the first of them. -/
def displayEvents (P : Board G) (seq : Int → Int) : List Nat → List Nat → List Out
  | [], _ => []
  | i :: rest, tx =>
    flashEvents P (seq i) 50 tx ++ displayEvents P seq rest (P.generateTxPacket (seq i) tx)

/-- The frame of the last `startSPITransmission` of a trace, if any. -/
def lastFrame : List Out → Option (List Nat)
  | [] => none
  | e :: rest =>
    match lastFrame rest with
    | some f => some f
    | none =>
      match e with
      | Out.startSPITransmission f => some f
      | _ => none

/-- The argument of the last `enableBuzzer` of a trace, if any. -/
def lastBuzzer : List Out → Option Int
  | [] => none
  | e :: rest =>
    match lastBuzzer rest with
    | some b => some b
    | none =>
      match e with
      | Out.enableBuzzer b => some b
      | _ => none

/-- The periods passed to `setTone` in a trace, in order. -/
def tonesSet : List Out → List Nat
  | [] => []
  | Out.setTone p :: rest => p :: tonesSet rest
  | _ :: rest => tonesSet rest

/-- The outcome frame: header, four LED slots carrying the same colour word pair (words 2, 3
of `onTxPacket` for a win, words 4, 5 for a loss), trailer. -/
def outcomeFrame (isWin : Int) : List Nat :=
  let a := if isWin ≠ 0 then onTxPacket.getD 2 0 else onTxPacket.getD 4 0
  let b := if isWin ≠ 0 then onTxPacket.getD 3 0 else onTxPacket.getD 5 0
  [0x0000, 0x0000, a, b, a, b, a, b, a, b, 0xFFFF, 0xFFFF]

/-- The peripheral calls of one repetition of the outcome animation. -/
def animationEvents (isWin : Int) : List Out :=
  [Out.setTone (if isWin ≠ 0 then LOAD_E6 else LOAD_C6), Out.enableBuzzer 1,
    Out.startSPITransmission (outcomeFrame isWin), Out.waitForTicks 50 0 0,
    Out.enableBuzzer 0, Out.startSPITransmission offTxPacket,
    Out.waitForTicks PAUSE_TICKS 0 0]

/-- The iteration leaves `case SIMON_GAME` through one of the `break`s that end the game: a
pressed button that is read as a new or changed press and is not the expected symbol, or the
accepted press that completes round `MAX_ROUNDS`. -/
def endsGame (s : State G) (inp : Input) : Prop :=
  inp.gameBtn ≠ 0 ∧
    (((s.simon_prevButton = 0 ∨ (inp.gameBtn : Int) ≠ s.simon_prevButton) ∧
        (inp.gameBtn : Int) ≠ s.simonSequence s.playerInputIndex) ∨
      (acceptsPress s inp ∧ s.currentRound ≤ s.playerInputIndex + 1 ∧
        MAX_ROUNDS ≤ s.currentRound))

/-! ## Concrete data used to evaluate the definitions -/

/-- A concrete board: a linear congruential generator whose state is its last output, and
packet helpers that leave `txMessage` alone. -/
def lcgBoard : Board Nat :=
  { srand := fun seed => seed
    rand := fun g => ((1103515245 * g + 12345) % 2 ^ 31, (1103515245 * g + 12345) % 2 ^ 31)
    generateTxPacket := fun _ tx => tx
    displayPattern := fun _ tx => tx }

/-- An iteration in which no button is pressed; `t` is the tick flag. -/
def noPress (t : Bool) : Input :=
  { btn := 0, releaseReads := [], waitBtn1 := 0, waitBtn2 := 0, gameBtn := 0, tick := t }

/-- An iteration in which every read of the buttons returns `b`; `t` is the tick flag. -/
def press (b : Nat) (t : Bool) : Input :=
  { btn := b, releaseReads := [], waitBtn1 := b, waitBtn2 := b, gameBtn := b, tick := t }

/-- The reads of the first press after power-on: button 3, released at the second reading of
the release loop. -/
def startInput : Input :=
  { press 3 false with releaseReads := [3, 0] }

/-- The state in which that press leaves the program: a game seeded with `randVal = 1`, whose
first generator output `1103527590` gives the symbol 3. -/
def startedState : State Nat :=
  { powerOn lcgBoard with
    randVal := 1
    rng := 1103527590
    currentState := SIMON_GAME
    simonSequence := Function.update (fun _ => 0) 0 3
    out := [Out.enableBuzzer 0] }

/-- The game started by that press, waiting for the only input of round 1 (the symbol 3). -/
def round1State : State Nat :=
  (run lcgBoard startedState [noPress false]).getD startedState

/-- The same game waiting for the first input of round 2, whose sequence is `3, 4`. -/
def awaitState : State Nat :=
  (run lcgBoard startedState [noPress false, press 3 false, noPress false]).getD startedState

/-- The same game one iteration later: button 3 was pressed and accepted while a tick was
pending, and is still held; the expected symbol is now 4. -/
def heldState : State Nat :=
  (run lcgBoard startedState
    [noPress false, press 3 false, noPress false, press 3 true]).getD startedState

/-- The first ten symbols of the game seeded with `randVal = 1` on `lcgBoard`. -/
def winSymbols : List Nat := [3, 4, 1, 2, 3, 4, 1, 2, 3, 4]

/-- A winning run for `startedState`: in round `r + 1` one iteration without a button (the
sequence is displayed), then the first `r + 1` symbols, each pressed after an iteration
without a button. -/
def winInputs : List Input :=
  (List.range 10).flatMap fun r =>
    noPress false :: (winSymbols.take (r + 1)).flatMap fun b => [noPress true, press b false]

/-- The winning run cut before the last press of round 5: 14 presses have been made and the
last iteration saw no button. -/
def round5Inputs : List Input := winInputs.take 34

/-- The state in which that run leaves the game. -/
def round5State : State Nat :=
  (run lcgBoard startedState round5Inputs).getD startedState

/-- The winning run cut before its last press: the tenth symbol of round 10 is awaited. -/
def lastPressInputs : List Input := winInputs.take 119

/-- The state in which that run leaves the game. -/
def lastPressState : State Nat :=
  (run lcgBoard startedState lastPressInputs).getD startedState

/-- The game started on `lcgBoard` right after round 1 is completed: round 2 (symbols 3, 4)
is about to be displayed. -/
def displayState : State Nat :=
  (run lcgBoard startedState [noPress false, press 3 false]).getD startedState

/-- The state in which the winning run leaves the game: `SIMON_WIN`. -/
def wonState : State Nat :=
  (run lcgBoard startedState winInputs).getD startedState

/-! ## Theorems -/

/-! ### Frame lemmas: the rendering code touches only `txMessage` and `out` -/

theorem flashButton_frame (P : Board G) (btn d : Int) (s : State G) :
    ∃ tx o, flashButton P btn d s = { s with txMessage := tx, out := o } := by
  unfold flashButton setTone startSPITransmission enableBuzzer waitForTicks
  split_ifs <;> exact ⟨_, _, rfl⟩

theorem foldl_flash_frame (P : Board G) (l : List Nat) (s : State G) :
    ∃ tx o, l.foldl (fun (s : State G) (i : Nat) => flashButton P (s.simonSequence (i : Int)) 50 s) s
      = { s with txMessage := tx, out := o } := by
  induction l generalizing s with
  | nil => exact ⟨s.txMessage, s.out, rfl⟩
  | cons i l ih =>
    obtain ⟨tx, o, h⟩ := flashButton_frame P (s.simonSequence (i : Int)) 50 s
    obtain ⟨tx2, o2, h2⟩ := ih (flashButton P (s.simonSequence (i : Int)) 50 s)
    refine ⟨tx2, o2, ?_⟩
    rw [List.foldl_cons, h2, h]

theorem displaySequence_frame (P : Board G) (s : State G) :
    ∃ tx o, displaySequence P s = { s with txMessage := tx, out := o } :=
  foldl_flash_frame P _ s

theorem animationPass_frame (isWin : Int) (s : State G) :
    ∃ tx o, animationPass isWin s = { s with txMessage := tx, out := o } := by
  unfold animationPass setTone startSPITransmission enableBuzzer waitForTicks
  split_ifs <;> exact ⟨_, _, rfl⟩

theorem playAnimation_frame (isWin : Int) (s : State G) :
    ∃ tx o, playAnimation isWin s
      = { s with txMessage := tx, out := o, currentState := STATE_PLAY_SONG } := by
  unfold playAnimation
  obtain ⟨t1, o1, h1⟩ := animationPass_frame isWin s
  obtain ⟨t2, o2, h2⟩ := animationPass_frame isWin (animationPass isWin s)
  obtain ⟨t3, o3, h3⟩ := animationPass_frame isWin (animationPass isWin (animationPass isWin s))
  refine ⟨t3, o3, ?_⟩
  simp only [List.range, List.range.loop, List.foldl]
  rw [h3, h2, h1]

/-! ### The shape of one `SIMON_GAME` iteration, branch by branch -/

theorem gameCase_display (P : Board G) (s : State G) (inp : Input)
    (h0 : s.simonSubState = 0) (hb : inp.gameBtn = 0) :
    ∃ tx o, gameCase P s inp =
      { s with txMessage := tx, out := o, simonSubState := 1,
               playerInputIndex := 0, inputTimeoutCounter := 0, simon_prevButton := 0 } := by
  obtain ⟨tx, o, h⟩ := displaySequence_frame P s
  refine ⟨tx, o, ?_⟩
  try dsimp only at h
  simp only [gameCase]
  rw [h]
  simp [h0, hb]

theorem gameCase_display_wait (P : Board G) (s : State G) (inp : Input)
    (h0 : s.simonSubState = 0) (hb : inp.gameBtn ≠ 0) : gameCase P s inp = s := by
  simp [gameCase, h0, hb]

theorem gameCase_none (P : Board G) (s : State G) (inp : Input)
    (h1 : s.simonSubState = 1) (hb : inp.gameBtn = 0) :
    gameCase P s inp = timeoutUpdate { s with simon_prevButton := 0 } inp := by
  simp [gameCase, h1, hb]

theorem gameCase_held (P : Board G) (s : State G) (inp : Input)
    (h1 : s.simonSubState = 1) (hb : inp.gameBtn ≠ 0)
    (hp : (inp.gameBtn : Int) = s.simon_prevButton) :
    gameCase P s inp = timeoutUpdate s inp := by
  have hb2 : (inp.gameBtn : Int) ≠ 0 := by exact_mod_cast hb
  have hp0 : s.simon_prevButton ≠ 0 := by rw [← hp]; exact hb2
  simp [gameCase, h1, hb, hp0, hp]

theorem gameCase_fresh_wrong (P : Board G) (s : State G) (inp : Input)
    (h1 : s.simonSubState = 1) (hb : inp.gameBtn ≠ 0) (hp : s.simon_prevButton = 0)
    (hw : (inp.gameBtn : Int) ≠ s.simonSequence s.playerInputIndex) :
    ∃ tx o, gameCase P s inp =
      { s with txMessage := tx, out := o,
               simon_prevButton := inp.gameBtn, currentState := SIMON_LOSE,
               timerTicked := inp.tick } := by
  obtain ⟨tx, o, h⟩ := flashButton_frame P (inp.gameBtn : Int) 20
    { s with simon_prevButton := (inp.gameBtn : Int) }
  refine ⟨tx, o, ?_⟩
  try dsimp only at h
  simp only [gameCase]
  rw [h]
  simp [h1, hb, hp, hw]

theorem gameCase_fresh_accept (P : Board G) (s : State G) (inp : Input)
    (h1 : s.simonSubState = 1) (hb : inp.gameBtn ≠ 0) (hp : s.simon_prevButton = 0)
    (hm : (inp.gameBtn : Int) = s.simonSequence s.playerInputIndex)
    (hr : s.playerInputIndex + 1 < s.currentRound) :
    ∃ tx o, gameCase P s inp = timeoutUpdate
      { s with txMessage := tx, out := o,
               simon_prevButton := inp.gameBtn, playerInputIndex := s.playerInputIndex + 1,
               inputTimeoutCounter := 0 } inp := by
  obtain ⟨tx, o, h⟩ := flashButton_frame P (inp.gameBtn : Int) 20
    { s with simon_prevButton := (inp.gameBtn : Int) }
  refine ⟨tx, o, ?_⟩
  have hr2 : ¬ s.currentRound ≤ s.playerInputIndex + 1 := by omega
  try dsimp only at h
  simp only [gameCase]
  rw [h]
  simp [h1, hb, hp, ← hm, hr2]

theorem gameCase_fresh_win (P : Board G) (s : State G) (inp : Input)
    (h1 : s.simonSubState = 1) (hb : inp.gameBtn ≠ 0) (hp : s.simon_prevButton = 0)
    (hm : (inp.gameBtn : Int) = s.simonSequence s.playerInputIndex)
    (hr : s.currentRound ≤ s.playerInputIndex + 1) (hmax : MAX_ROUNDS ≤ s.currentRound) :
    ∃ tx o, gameCase P s inp =
      { s with txMessage := tx, out := o,
               simon_prevButton := inp.gameBtn, playerInputIndex := s.playerInputIndex + 1,
               inputTimeoutCounter := 0, currentState := SIMON_WIN,
               timerTicked := inp.tick } := by
  obtain ⟨tx, o, h⟩ := flashButton_frame P (inp.gameBtn : Int) 20
    { s with simon_prevButton := (inp.gameBtn : Int) }
  refine ⟨tx, o, ?_⟩
  try dsimp only at h
  simp only [gameCase]
  rw [h]
  simp [h1, hb, hp, ← hm, hr, hmax]

theorem gameCase_fresh_advance (P : Board G) (s : State G) (inp : Input)
    (h1 : s.simonSubState = 1) (hb : inp.gameBtn ≠ 0) (hp : s.simon_prevButton = 0)
    (hm : (inp.gameBtn : Int) = s.simonSequence s.playerInputIndex)
    (hr : s.currentRound ≤ s.playerInputIndex + 1) (hmax : s.currentRound < MAX_ROUNDS) :
    ∃ tx o, gameCase P s inp = timeoutUpdate
      { s with txMessage := tx, out := o, simon_prevButton := 0,
               playerInputIndex := s.playerInputIndex + 1, inputTimeoutCounter := 0,
               currentRound := s.currentRound + 1, rng := (P.rand s.rng).2,
               simonSequence := Function.update s.simonSequence s.currentRound
                 (((P.rand s.rng).1 % 4 : Nat) + 1),
               simonSubState := 0 } inp := by
  obtain ⟨tx, o, h⟩ := flashButton_frame P (inp.gameBtn : Int) 20
    { s with simon_prevButton := (inp.gameBtn : Int) }
  refine ⟨tx, o, ?_⟩
  have hmax2 : ¬ MAX_ROUNDS ≤ s.currentRound := by omega
  try dsimp only at h
  simp only [gameCase]
  rw [h]
  simp [h1, hb, hp, ← hm, hr, hmax2]

theorem gameCase_changed_wrong (P : Board G) (s : State G) (inp : Input)
    (h1 : s.simonSubState = 1) (hb : inp.gameBtn ≠ 0) (hp : s.simon_prevButton ≠ 0)
    (hc : (inp.gameBtn : Int) ≠ s.simon_prevButton)
    (hw : (inp.gameBtn : Int) ≠ s.simonSequence s.playerInputIndex) :
    ∃ tx o, gameCase P s inp =
      { s with txMessage := tx, out := o,
               simon_prevButton := inp.gameBtn, currentState := SIMON_LOSE,
               timerTicked := inp.tick } := by
  obtain ⟨tx, o, h⟩ := flashButton_frame P (inp.gameBtn : Int) 20
    { s with simon_prevButton := (inp.gameBtn : Int) }
  refine ⟨tx, o, ?_⟩
  try dsimp only at h
  simp only [gameCase]
  rw [h]
  simp [h1, hb, hp, hw, hc]

theorem gameCase_changed_match (P : Board G) (s : State G) (inp : Input)
    (h1 : s.simonSubState = 1) (hb : inp.gameBtn ≠ 0) (hp : s.simon_prevButton ≠ 0)
    (hc : (inp.gameBtn : Int) ≠ s.simon_prevButton)
    (hm : (inp.gameBtn : Int) = s.simonSequence s.playerInputIndex) :
    ∃ tx o, gameCase P s inp = timeoutUpdate
      { s with txMessage := tx, out := o,
               simon_prevButton := inp.gameBtn } inp := by
  obtain ⟨tx, o, h⟩ := flashButton_frame P (inp.gameBtn : Int) 20
    { s with simon_prevButton := (inp.gameBtn : Int) }
  refine ⟨tx, o, ?_⟩
  try dsimp only at h
  simp only [gameCase]
  rw [h]
  simp [h1, hb, hp, ← hm, hc]

theorem gameCase_other (P : Board G) (s : State G) (inp : Input)
    (h0 : s.simonSubState ≠ 0) (h1 : s.simonSubState ≠ 1) : gameCase P s inp = s := by
  simp [gameCase, h0, h1]

theorem timeoutUpdate_eq (s : State G) (inp : Input) :
    timeoutUpdate s inp =
      { s with timerTicked := false,
               inputTimeoutCounter := s.inputTimeoutCounter + (if inp.tick then 1 else 0),
               currentState :=
                 if s.inputTimeoutCounter + (if inp.tick then 1 else 0) > INPUT_TIMEOUT_TICKS
                 then SIMON_LOSE else s.currentState } := by
  unfold timeoutUpdate
  cases ht : inp.tick <;> simp <;> split_ifs <;> rfl

theorem step_game (P : Board G) (s : State G) (inp : Input)
    (hs : s.currentState = SIMON_GAME) : step P s inp = some (gameCase P s inp) := by
  simp [step, hs]

theorem run_cons_game (P : Board G) (s : State G) (inp : Input) (rest : List Input)
    (hs : s.currentState = SIMON_GAME) :
    run P s (inp :: rest) = run P (gameCase P s inp) rest := by
  simp [run, step_game P s inp hs]

/-! ### Timeout -/

theorem run_ticks_below (P : Board G) : ∀ (ins : List Input) (s : State G),
    s.currentState = SIMON_GAME → s.simonSubState = 1 →
    (∀ inp ∈ ins, inp.gameBtn = 0 ∧ inp.tick = true) →
    s.inputTimeoutCounter + ins.length ≤ INPUT_TIMEOUT_TICKS →
    ∃ s', run P s ins = some s' ∧ s'.currentState = SIMON_GAME ∧ s'.simonSubState = 1 ∧
      s'.inputTimeoutCounter = s.inputTimeoutCounter + ins.length := by
  intro ins
  induction ins with
  | nil => intro s hs h1 _ _; exact ⟨s, rfl, hs, h1, by simp⟩
  | cons inp rest ih =>
    intro s hs h1 hin hle
    have hi := hin inp (List.mem_cons_self _ _)
    have hlen : ((inp :: rest).length : Int) = (rest.length : Int) + 1 := by simp
    rw [hlen] at hle
    have hg : gameCase P s inp =
        { s with simon_prevButton := 0, timerTicked := false,
                 inputTimeoutCounter := s.inputTimeoutCounter + 1 } := by
      rw [gameCase_none P s inp h1 hi.1, timeoutUpdate_eq]
      have : ¬ (s.inputTimeoutCounter + 1 > INPUT_TIMEOUT_TICKS) := by
        have := Int.natCast_nonneg rest.length
        unfold INPUT_TIMEOUT_TICKS at *; omega
      simp [hi.2, this, hs]
    obtain ⟨s', hr, h1', h2', h3'⟩ := ih (gameCase P s inp) (by rw [hg]; exact hs)
      (by rw [hg]; exact h1) (fun i hi' => hin i (List.mem_cons_of_mem _ hi'))
      (by rw [hg]; simp only; omega)
    refine ⟨s', ?_, h1', h2', ?_⟩
    · rw [run_cons_game P s inp rest hs]; exact hr
    · rw [h3', hg, hlen]; simp only; omega

theorem run_ticks_over (P : Board G) : ∀ (ins : List Input) (s : State G),
    s.currentState = SIMON_GAME → s.simonSubState = 1 →
    (∀ inp ∈ ins, inp.gameBtn = 0 ∧ inp.tick = true) →
    s.inputTimeoutCounter ≤ INPUT_TIMEOUT_TICKS →
    s.inputTimeoutCounter + ins.length = INPUT_TIMEOUT_TICKS + 1 →
    ∃ s', run P s ins = some s' ∧ s'.currentState = SIMON_LOSE := by
  intro ins
  induction ins with
  | nil =>
    intro s _ _ _ hle hlen
    simp at hlen
    omega
  | cons inp rest ih =>
    intro s hs h1 hin hle hlen
    have hi := hin inp (List.mem_cons_self _ _)
    have hl : ((inp :: rest).length : Int) = (rest.length : Int) + 1 := by simp
    rw [hl] at hlen
    have hg : gameCase P s inp =
        { s with simon_prevButton := 0, timerTicked := false,
                 inputTimeoutCounter := s.inputTimeoutCounter + 1,
                 currentState := if s.inputTimeoutCounter + 1 > INPUT_TIMEOUT_TICKS
                   then SIMON_LOSE else SIMON_GAME } := by
      rw [gameCase_none P s inp h1 hi.1, timeoutUpdate_eq]
      simp [hi.2, hs]
    rw [run_cons_game P s inp rest hs]
    by_cases hc : s.inputTimeoutCounter + 1 > INPUT_TIMEOUT_TICKS
    · have hr : rest = [] := by
        have : (rest.length : Int) = 0 := by omega
        exact List.length_eq_zero.mp (by exact_mod_cast this)
      subst hr
      refine ⟨gameCase P s inp, rfl, ?_⟩
      rw [hg]; simp [hc]
    · exact ih (gameCase P s inp) (by rw [hg]; simp [hc]) (by rw [hg]; exact h1)
        (fun i hi' => hin i (List.mem_cons_of_mem _ hi'))
        (by rw [hg]; simp only; omega) (by rw [hg]; simp only; omega)

/-- C3. Timeout boundary: from an input-waiting state whose timeout counter is 0, iterations
with no button pressed and a pending tick keep the game in `SIMON_GAME` for up to 200
iterations (the counter equals the number of iterations, 200 after the 200th), and the 201st
iteration puts it in `SIMON_LOSE`. -/
theorem timeout_boundary (P : Board G) (s : State G) (ins : List Input)
    (hs : s.currentState = SIMON_GAME) (h1 : s.simonSubState = 1)
    (hc : s.inputTimeoutCounter = 0)
    (hin : ∀ inp ∈ ins, inp.gameBtn = 0 ∧ inp.tick = true) :
    (ins.length ≤ 200 → ∃ s', run P s ins = some s' ∧ s'.currentState = SIMON_GAME ∧
        s'.inputTimeoutCounter = ins.length) ∧
    (ins.length = 201 → ∃ s', run P s ins = some s' ∧ s'.currentState = SIMON_LOSE) := by
  constructor
  · intro hlen
    obtain ⟨s', hr, h1', _, h3'⟩ := run_ticks_below P ins s hs h1 hin
      (by rw [hc]; unfold INPUT_TIMEOUT_TICKS; omega)
    exact ⟨s', hr, h1', by rw [h3', hc]; simp⟩
  · intro hlen
    exact run_ticks_over P ins s hs h1 hin (by rw [hc]; decide)
      (by rw [hc, hlen]; decide)

/-- Witness for C3: 200 ticking iterations from `awaitState` leave the game running with
counter 200, and 201 lose it. -/
theorem timeout_boundary_witness :
    (∃ s', run lcgBoard awaitState (List.replicate 200 (noPress true)) = some s' ∧
      s'.currentState = SIMON_GAME ∧ s'.inputTimeoutCounter = 200) ∧
    (∃ s', run lcgBoard awaitState (List.replicate 201 (noPress true)) = some s' ∧
      s'.currentState = SIMON_LOSE) :=
  ⟨by
    have h := (timeout_boundary lcgBoard awaitState (List.replicate 200 (noPress true))
      (by decide) (by decide) (by decide) (by intro inp hi; rw [List.eq_of_mem_replicate hi]; exact ⟨rfl, rfl⟩)).1
      (by rw [List.length_replicate])
    rw [List.length_replicate] at h
    exact_mod_cast h,
   (timeout_boundary lcgBoard awaitState (List.replicate 201 (noPress true)) (by decide)
      (by decide) (by decide) (by intro inp hi; rw [List.eq_of_mem_replicate hi]; exact ⟨rfl, rfl⟩)).2
      (by rw [List.length_replicate])⟩

/-! ### Single iterations while waiting for input -/

theorem reachable_run (P : Board G) : ∀ (ins : List Input) (s s' : State G),
    Reachable P s → run P s ins = some s' → Reachable P s'
  | [], s, s', h, hrun => by
    rw [← Option.some.inj hrun]
    exact h
  | inp :: rest, s, s', h, hrun => by
    unfold run at hrun
    cases hstep : step P s inp with
    | none => rw [hstep] at hrun; exact absurd hrun (by simp)
    | some s1 =>
      rw [hstep] at hrun
      exact reachable_run P rest s1 s' (Reachable.next h hstep) hrun

theorem heldState_reachable : Reachable lcgBoard heldState := by
  have hs : (run lcgBoard startedState
      [noPress false, press 3 false, noPress false, press 3 true]).isSome = true := by decide
  obtain ⟨x, hx⟩ := Option.isSome_iff_exists.mp hs
  have hx' : heldState = x := by
    unfold heldState
    rw [hx]
    rfl
  rw [hx']
  exact reachable_run lcgBoard _ startedState x
    (Reachable.next Reachable.init (show step lcgBoard (powerOn lcgBoard) startInput = some _
      from rfl)) hx

/-- C5 (as stated it fails): `heldState` is reached from power-on by starting a game and
pressing 3, 3; button 3 is held and the expected symbol is 4. Changing to button 4 without
releasing matches `simonSequence[playerInputIndex]`, yet the iteration neither increments
`playerInputIndex` nor resets the timeout counter. -/
theorem changed_button_not_accepted :
    Reachable lcgBoard heldState ∧
    heldState.currentState = SIMON_GAME ∧ heldState.simonSubState = 1 ∧
    heldState.simon_prevButton = 3 ∧ (press 4 false).gameBtn = 4 ∧
    heldState.simonSequence heldState.playerInputIndex = 4 ∧
    ∃ s', step lcgBoard heldState (press 4 false) = some s' ∧
      s'.playerInputIndex ≠ heldState.playerInputIndex + 1 ∧ s'.inputTimeoutCounter ≠ 0 :=
  ⟨heldState_reachable, by decide, by decide, by decide, rfl, by decide, _, rfl, by decide,
    by decide⟩

/-- C5 (amended). A button that replaces a held one without a release is only checked: the
iteration records it as `simon_prevButton` and leaves `playerInputIndex` and `currentRound`
alone; when it differs from `simonSequence[playerInputIndex]` the state becomes `SIMON_LOSE`;
when it is equal nothing is accepted: the timeout counter is not reset, it only takes the tick
update of the iteration, which alone decides whether the game goes on. -/
theorem changed_button_checked (P : Board G) (s : State G) (inp : Input)
    (hs : s.currentState = SIMON_GAME) (h1 : s.simonSubState = 1)
    (hp : s.simon_prevButton ≠ 0) (hb : inp.gameBtn ≠ 0)
    (hc : (inp.gameBtn : Int) ≠ s.simon_prevButton) :
    ∃ s', step P s inp = some s' ∧
      s'.playerInputIndex = s.playerInputIndex ∧ s'.currentRound = s.currentRound ∧
      s'.simon_prevButton = inp.gameBtn ∧ s'.simonSequence = s.simonSequence ∧
      ((inp.gameBtn : Int) ≠ s.simonSequence s.playerInputIndex →
        s'.currentState = SIMON_LOSE) ∧
      ((inp.gameBtn : Int) = s.simonSequence s.playerInputIndex →
        s'.inputTimeoutCounter = s.inputTimeoutCounter + (if inp.tick then 1 else 0) ∧
        s'.currentState =
          if s.inputTimeoutCounter + (if inp.tick then 1 else 0) > INPUT_TIMEOUT_TICKS
          then SIMON_LOSE else SIMON_GAME) := by
  refine ⟨gameCase P s inp, step_game P s inp hs, ?_⟩
  by_cases hm : (inp.gameBtn : Int) = s.simonSequence s.playerInputIndex
  · obtain ⟨tx, o, h⟩ := gameCase_changed_match P s inp h1 hb hp hc hm
    rw [h, timeoutUpdate_eq]
    simp [hm, hs]
  · obtain ⟨tx, o, h⟩ := gameCase_changed_wrong P s inp h1 hb hp hc hm
    rw [h]
    simp [hm]

/-- Witness for C5 (amended), at `heldState` with button 4 replacing the held button 3. -/
theorem changed_button_checked_witness :
    ∃ s', step lcgBoard heldState (press 4 false) = some s' ∧
      s'.playerInputIndex = heldState.playerInputIndex ∧
      s'.currentRound = heldState.currentRound ∧
      s'.simon_prevButton = (press 4 false).gameBtn ∧
      s'.simonSequence = heldState.simonSequence ∧
      ((((press 4 false).gameBtn : Nat) : Int) ≠
          heldState.simonSequence heldState.playerInputIndex →
        s'.currentState = SIMON_LOSE) ∧
      ((((press 4 false).gameBtn : Nat) : Int) =
          heldState.simonSequence heldState.playerInputIndex →
        s'.inputTimeoutCounter =
          heldState.inputTimeoutCounter + (if (press 4 false).tick then 1 else 0) ∧
        s'.currentState =
          if heldState.inputTimeoutCounter + (if (press 4 false).tick then 1 else 0)
            > INPUT_TIMEOUT_TICKS
          then SIMON_LOSE else SIMON_GAME) :=
  changed_button_checked lcgBoard heldState (press 4 false) (by decide) (by decide)
    (by decide) (by decide) (by decide)

/-- C6. Round advance: in an input-waiting state with `currentRound = r < MAX_ROUNDS`,
`playerInputIndex = r - 1` and no button registered, a fresh press of `simonSequence[r - 1]`
leaves the game in `SIMON_GAME` with `currentRound = r + 1`, `simonSubState = 0`,
`simon_prevButton = 0`, and `simonSequence[r]` equal to the next generator output modulo 4
plus 1, a value in 1..4. -/
theorem round_advance (P : Board G) (s : State G) (inp : Input)
    (hs : s.currentState = SIMON_GAME) (h1 : s.simonSubState = 1)
    (hr : s.currentRound < MAX_ROUNDS) (hi : s.playerInputIndex = s.currentRound - 1)
    (hp : s.simon_prevButton = 0) (hb : inp.gameBtn ≠ 0)
    (hm : (inp.gameBtn : Int) = s.simonSequence (s.currentRound - 1)) :
    ∃ s', step P s inp = some s' ∧
      s'.currentState = SIMON_GAME ∧ s'.currentRound = s.currentRound + 1 ∧
      s'.simonSubState = 0 ∧ s'.simon_prevButton = 0 ∧
      s'.simonSequence s.currentRound = (((P.rand s.rng).1 % 4 : Nat) : Int) + 1 ∧
      1 ≤ s'.simonSequence s.currentRound ∧ s'.simonSequence s.currentRound ≤ 4 ∧
      s'.rng = (P.rand s.rng).2 := by
  refine ⟨gameCase P s inp, step_game P s inp hs, ?_⟩
  obtain ⟨tx, o, h⟩ := gameCase_fresh_advance P s inp h1 hb hp (by rw [hi]; exact hm)
    (by rw [hi]; omega) hr
  rw [h, timeoutUpdate_eq]
  have hlt : ¬ ((0 : Int) + (if inp.tick then 1 else 0) > INPUT_TIMEOUT_TICKS) := by
    unfold INPUT_TIMEOUT_TICKS; split_ifs <;> omega
  simp only [hlt, if_false, Function.update_same, hs, true_and]
  refine ⟨?_, ?_, trivial⟩ <;> omega

/-- Witness for C6: the press of symbol 3 that completes round 1 in `round1State`. -/
theorem round_advance_witness :
    ∃ s', step lcgBoard round1State (press 3 false) = some s' ∧
      s'.currentState = SIMON_GAME ∧ s'.currentRound = round1State.currentRound + 1 ∧
      s'.simonSubState = 0 ∧ s'.simon_prevButton = 0 ∧
      s'.simonSequence round1State.currentRound =
        (((lcgBoard.rand round1State.rng).1 % 4 : Nat) : Int) + 1 ∧
      1 ≤ s'.simonSequence round1State.currentRound ∧
      s'.simonSequence round1State.currentRound ≤ 4 ∧
      s'.rng = (lcgBoard.rand round1State.rng).2 :=
  round_advance lcgBoard round1State (press 3 false) (by decide) (by decide) (by decide)
    (by decide) (by decide) (by decide) (by decide)

/-! ### The power-on animation state -/

theorem waitRelease_of_mem : ∀ (l : List Nat), 0 ∈ l → waitRelease l = some ()
  | [], h => by simp at h
  | r :: rs, h => by
    unfold waitRelease
    by_cases hr : r = 0
    · simp [hr]
    · have : 0 ∈ rs := by
        rcases List.mem_cons.mp h with h0 | h0
        · exact absurd h0.symm hr
        · exact h0
      simp [hr, waitRelease_of_mem rs this]

theorem playSongCase_press (P : Board G) (s : State G) (inp : Input)
    (hb : inp.btn ≠ 0) (hrel : 0 ∈ inp.releaseReads) :
    ∃ o, playSongCase P s inp = some
      { s with randVal := (s.randVal + 1) % 2 ^ 32,
               rng := (P.rand (P.srand ((s.randVal + 1) % 2 ^ 32))).2,
               currentState := SIMON_GAME, currentRound := 1, playerInputIndex := 0,
               simonSubState := 0, inputTimeoutCounter := 0,
               simonSequence := Function.update s.simonSequence 0
                 ((((P.rand (P.srand ((s.randVal + 1) % 2 ^ 32))).1 % 4 : Nat) : Int) + 1),
               out := o } := by
  simp only [playSongCase, hb, ne_eq, not_false_eq_true, if_true,
    waitRelease_of_mem _ hrel, enableBuzzer]
  exact ⟨_, rfl⟩

theorem playSongCase_idle (P : Board G) (s : State G) (inp : Input)
    (hs : s.currentState ≠ SIMON_GAME) (hb : inp.btn = 0) :
    ∃ tx o, playSongCase P s inp = some
      { s with randVal := (s.randVal + 1) % 2 ^ 32, txMessage := tx, out := o,
               powerOnPattern := Int.tmod s.powerOnPattern 3 + 1 } := by
  simp only [playSongCase, hb, ne_eq, not_true_eq_false, if_false, enableBuzzer, setTone,
    startSPITransmission, waitForTicks, hs]
  exact ⟨_, _, rfl⟩

theorem step_playSong (P : Board G) (s : State G) (inp : Input)
    (hs : s.currentState = STATE_PLAY_SONG) : step P s inp = playSongCase P s inp := by
  simp [step, hs]

/-- C8. Idle to playing: in the power-on animation state, whatever a previous game left in the
game variables, an iteration that sees a button pressed at its start and then sees it released
ends in `SIMON_GAME` with `currentRound = 1`, `playerInputIndex = 0`, `simonSubState = 0`,
`inputTimeoutCounter = 0`, and `simonSequence[0]` equal to the first output of the generator
seeded with the accumulated `randVal` (the counter after this iteration's increment, modulo
`2 ^ 32`) modulo 4 plus 1. -/
theorem idle_to_playing (P : Board G) (s : State G) (inp : Input)
    (hs : s.currentState = STATE_PLAY_SONG) (hb : inp.btn ≠ 0)
    (hrel : 0 ∈ inp.releaseReads) :
    ∃ s', step P s inp = some s' ∧
      s'.currentState = SIMON_GAME ∧ s'.currentRound = 1 ∧ s'.playerInputIndex = 0 ∧
      s'.simonSubState = 0 ∧ s'.inputTimeoutCounter = 0 ∧
      s'.randVal = (s.randVal + 1) % 2 ^ 32 ∧
      s'.simonSequence 0 = (((P.rand (P.srand s'.randVal)).1 % 4 : Nat) : Int) + 1 := by
  obtain ⟨o, h⟩ := playSongCase_press P s inp hb hrel
  refine ⟨_, (step_playSong P s inp hs).trans h, ?_⟩
  simp

/-- Witness for C8: the first press after power-on, released at the second reading. -/
theorem idle_to_playing_witness :
    ∃ s', step lcgBoard (powerOn lcgBoard) { press 3 false with releaseReads := [3, 0] }
        = some s' ∧
      s'.currentState = SIMON_GAME ∧ s'.currentRound = 1 ∧ s'.playerInputIndex = 0 ∧
      s'.simonSubState = 0 ∧ s'.inputTimeoutCounter = 0 ∧
      s'.randVal = ((powerOn lcgBoard).randVal + 1) % 2 ^ 32 ∧
      s'.simonSequence 0 = (((lcgBoard.rand (lcgBoard.srand s'.randVal)).1 % 4 : Nat) : Int) + 1 :=
  idle_to_playing lcgBoard (powerOn lcgBoard) { press 3 false with releaseReads := [3, 0] }
    rfl (by decide) (by decide)

/-! ### Summary of one `SIMON_GAME` iteration -/

theorem zero_tick_le (inp : Input) :
    ¬ ((0 : Int) + (if inp.tick then 1 else 0) > INPUT_TIMEOUT_TICKS) := by
  unfold INPUT_TIMEOUT_TICKS; split_ifs <;> omega

theorem gameCase_summary (P : Board G) (s : State G) (inp : Input) :
    (gameCase P s inp).randVal = s.randVal ∧
    ((s.simonSubState = 0 ∧ inp.gameBtn = 0 ∧
        (gameCase P s inp).simonSubState = 1 ∧ (gameCase P s inp).playerInputIndex = 0 ∧
        (gameCase P s inp).currentRound = s.currentRound ∧
        (gameCase P s inp).simonSequence = s.simonSequence ∧
        (gameCase P s inp).rng = s.rng ∧
        (gameCase P s inp).currentState = s.currentState) ∨
     (acceptsPress s inp ∧ s.playerInputIndex + 1 < s.currentRound ∧
        (gameCase P s inp).simonSubState = 1 ∧
        (gameCase P s inp).playerInputIndex = s.playerInputIndex + 1 ∧
        (gameCase P s inp).currentRound = s.currentRound ∧
        (gameCase P s inp).simonSequence = s.simonSequence ∧
        (gameCase P s inp).rng = s.rng ∧
        (gameCase P s inp).currentState = s.currentState) ∨
     (acceptsPress s inp ∧ s.currentRound ≤ s.playerInputIndex + 1 ∧
        MAX_ROUNDS ≤ s.currentRound ∧
        (gameCase P s inp).simonSubState = 1 ∧
        (gameCase P s inp).playerInputIndex = s.playerInputIndex + 1 ∧
        (gameCase P s inp).currentRound = s.currentRound ∧
        (gameCase P s inp).simonSequence = s.simonSequence ∧
        (gameCase P s inp).rng = s.rng ∧
        (gameCase P s inp).currentState = SIMON_WIN) ∨
     (acceptsPress s inp ∧ s.currentRound ≤ s.playerInputIndex + 1 ∧
        s.currentRound < MAX_ROUNDS ∧
        (gameCase P s inp).simonSubState = 0 ∧
        (gameCase P s inp).playerInputIndex = s.playerInputIndex + 1 ∧
        (gameCase P s inp).currentRound = s.currentRound + 1 ∧
        (gameCase P s inp).simonSequence = Function.update s.simonSequence s.currentRound
          ((((P.rand s.rng).1 % 4 : Nat) : Int) + 1) ∧
        (gameCase P s inp).rng = (P.rand s.rng).2 ∧
        (gameCase P s inp).currentState = s.currentState) ∨
     (¬ acceptsPress s inp ∧ ¬ (s.simonSubState = 0 ∧ inp.gameBtn = 0) ∧
        (gameCase P s inp).simonSubState = s.simonSubState ∧
        (gameCase P s inp).playerInputIndex = s.playerInputIndex ∧
        (gameCase P s inp).currentRound = s.currentRound ∧
        (gameCase P s inp).simonSequence = s.simonSequence ∧
        (gameCase P s inp).rng = s.rng ∧
        ((gameCase P s inp).currentState = s.currentState ∨
          (gameCase P s inp).currentState = SIMON_LOSE))) := by
  by_cases h0 : s.simonSubState = 0
  · by_cases hb : inp.gameBtn = 0
    · obtain ⟨tx, o, h⟩ := gameCase_display P s inp h0 hb
      rw [h]
      exact ⟨rfl, Or.inl ⟨h0, hb, rfl, rfl, rfl, rfl, rfl, rfl⟩⟩
    · rw [gameCase_display_wait P s inp h0 hb]
      refine ⟨rfl, Or.inr (Or.inr (Or.inr (Or.inr
        ⟨fun ha => ?_, fun ha => hb ha.2, rfl, rfl, rfl, rfl, rfl, Or.inl rfl⟩)))⟩
      rw [ha.1] at h0
      exact absurd h0 (by decide)
  · by_cases h1 : s.simonSubState = 1
    · by_cases hb : inp.gameBtn = 0
      · rw [gameCase_none P s inp h1 hb, timeoutUpdate_eq]
        refine ⟨rfl, Or.inr (Or.inr (Or.inr (Or.inr
          ⟨fun ha => ha.2.1 hb, fun ha => h0 ha.1, rfl, rfl, rfl, rfl, rfl, ?_⟩)))⟩
        simp only
        split_ifs <;> first | exact Or.inr rfl | exact Or.inl rfl
      · by_cases hp : s.simon_prevButton = 0
        · by_cases hm : (inp.gameBtn : Int) = s.simonSequence s.playerInputIndex
          · have ha : acceptsPress s inp := ⟨h1, hb, hp, hm⟩
            by_cases hr : s.currentRound ≤ s.playerInputIndex + 1
            · by_cases hmax : s.currentRound < MAX_ROUNDS
              · obtain ⟨tx, o, h⟩ := gameCase_fresh_advance P s inp h1 hb hp hm hr hmax
                rw [h, timeoutUpdate_eq]
                refine ⟨rfl, Or.inr (Or.inr (Or.inr (Or.inl
                  ⟨ha, hr, hmax, rfl, rfl, rfl, rfl, rfl, ?_⟩)))⟩
                simp only [zero_tick_le inp, if_false]
              · obtain ⟨tx, o, h⟩ := gameCase_fresh_win P s inp h1 hb hp hm hr
                  (not_lt.mp hmax)
                rw [h]
                exact ⟨rfl, Or.inr (Or.inr (Or.inl
                  ⟨ha, hr, not_lt.mp hmax, h1, rfl, rfl, rfl, rfl, rfl⟩))⟩
            · obtain ⟨tx, o, h⟩ := gameCase_fresh_accept P s inp h1 hb hp hm (not_le.mp hr)
              rw [h, timeoutUpdate_eq]
              refine ⟨rfl, Or.inr (Or.inl ⟨ha, not_le.mp hr, h1, rfl, rfl, rfl, rfl, ?_⟩)⟩
              simp only [zero_tick_le inp, if_false]
          · obtain ⟨tx, o, h⟩ := gameCase_fresh_wrong P s inp h1 hb hp hm
            rw [h]
            exact ⟨rfl, Or.inr (Or.inr (Or.inr (Or.inr
              ⟨fun ha => hm ha.2.2.2, fun ha => h0 ha.1, rfl, rfl, rfl, rfl, rfl,
                Or.inr rfl⟩)))⟩
        · by_cases hc : (inp.gameBtn : Int) = s.simon_prevButton
          · rw [gameCase_held P s inp h1 hb hc, timeoutUpdate_eq]
            refine ⟨rfl, Or.inr (Or.inr (Or.inr (Or.inr
              ⟨fun ha => hp ha.2.2.1, fun ha => h0 ha.1, rfl, rfl, rfl, rfl, rfl, ?_⟩)))⟩
            simp only
            split_ifs <;> first | exact Or.inr rfl | exact Or.inl rfl
          · by_cases hm : (inp.gameBtn : Int) = s.simonSequence s.playerInputIndex
            · obtain ⟨tx, o, h⟩ := gameCase_changed_match P s inp h1 hb hp hc hm
              rw [h, timeoutUpdate_eq]
              refine ⟨rfl, Or.inr (Or.inr (Or.inr (Or.inr
                ⟨fun ha => hp ha.2.2.1, fun ha => h0 ha.1, rfl, rfl, rfl, rfl, rfl, ?_⟩)))⟩
              simp only
              split_ifs <;> first | exact Or.inr rfl | exact Or.inl rfl
            · obtain ⟨tx, o, h⟩ := gameCase_changed_wrong P s inp h1 hb hp hc hm
              rw [h]
              exact ⟨rfl, Or.inr (Or.inr (Or.inr (Or.inr
                ⟨fun ha => hp ha.2.2.1, fun ha => h0 ha.1, rfl, rfl, rfl, rfl, rfl,
                  Or.inr rfl⟩)))⟩
    · rw [gameCase_other P s inp h0 h1]
      exact ⟨rfl, Or.inr (Or.inr (Or.inr (Or.inr
        ⟨fun ha => h1 ha.1, fun ha => h0 ha.1, rfl, rfl, rfl, rfl, rfl, Or.inl rfl⟩)))⟩

/-! ### Every iteration, state by state -/

theorem step_outcome (P : Board G) (s : State G) (inp : Input)
    (hs : s.currentState = SIMON_WIN ∨ s.currentState = SIMON_LOSE) :
    ∃ tx o, step P s inp = some
      { s with txMessage := tx, out := o, currentState := STATE_PLAY_SONG } := by
  rcases hs with hs | hs
  · obtain ⟨tx, o, h⟩ := playAnimation_frame 1 s
    exact ⟨tx, o, by simp [step, hs, h]⟩
  · obtain ⟨tx, o, h⟩ := playAnimation_frame 0 s
    exact ⟨tx, o, by simp [step, hs, h]⟩

theorem waitRelease_none : ∀ (l : List Nat), 0 ∉ l → waitRelease l = none
  | [], _ => rfl
  | r :: rs, hl => by
    have hr : r ≠ 0 := fun h0 => hl (by simp [h0])
    have hrs : 0 ∉ rs := fun h0 => hl (List.mem_cons_of_mem _ h0)
    simp [waitRelease, hr, waitRelease_none rs hrs]

theorem playSongCase_some_press (P : Board G) (s s' : State G) (inp : Input)
    (hb : inp.btn ≠ 0) (h : playSongCase P s inp = some s') :
    ∃ o, s' =
      { s with randVal := (s.randVal + 1) % 2 ^ 32,
               rng := (P.rand (P.srand ((s.randVal + 1) % 2 ^ 32))).2,
               currentState := SIMON_GAME, currentRound := 1, playerInputIndex := 0,
               simonSubState := 0, inputTimeoutCounter := 0,
               simonSequence := Function.update s.simonSequence 0
                 ((((P.rand (P.srand ((s.randVal + 1) % 2 ^ 32))).1 % 4 : Nat) : Int) + 1),
               out := o } := by
  have hrel : 0 ∈ inp.releaseReads := by
    by_contra hno
    simp [playSongCase, hb, waitRelease_none _ hno] at h
  obtain ⟨o, h2⟩ := playSongCase_press P s inp hb hrel
  rw [h2] at h
  exact ⟨o, (Option.some.inj h).symm⟩

theorem playSongCase_cases (P : Board G) (s s' : State G) (inp : Input)
    (hs : s.currentState = STATE_PLAY_SONG) (h : playSongCase P s inp = some s') :
    (∃ o, s' =
      { s with randVal := (s.randVal + 1) % 2 ^ 32,
               rng := (P.rand (P.srand ((s.randVal + 1) % 2 ^ 32))).2,
               currentState := SIMON_GAME, currentRound := 1, playerInputIndex := 0,
               simonSubState := 0, inputTimeoutCounter := 0,
               simonSequence := Function.update s.simonSequence 0
                 ((((P.rand (P.srand ((s.randVal + 1) % 2 ^ 32))).1 % 4 : Nat) : Int) + 1),
               out := o }) ∨
    (∃ tx o, s' =
      { s with randVal := (s.randVal + 1) % 2 ^ 32, txMessage := tx, out := o,
               powerOnPattern := Int.tmod s.powerOnPattern 3 + 1 }) := by
  by_cases hb : inp.btn = 0
  · obtain ⟨tx, o, h2⟩ := playSongCase_idle P s inp (by rw [hs]; decide) hb
    rw [h2] at h
    exact Or.inr ⟨tx, o, (Option.some.inj h).symm⟩
  · exact Or.inl (playSongCase_some_press P s s' inp hb h)

/-! ### The sequence is append-only -/

/-- C7. Append-only sequence: an iteration taken in `SIMON_GAME`, `SIMON_WIN` or `SIMON_LOSE`
with `currentRound = r` leaves `simonSequence[0 .. r - 1]` unchanged, does not decrease
`currentRound`, increases it by at most one, and increases it by exactly one exactly when the
iteration completes the round with `r < MAX_ROUNDS`. -/
theorem sequence_append_only (P : Board G) (s : State G) (inp : Input)
    (hs : s.currentState = SIMON_GAME ∨ s.currentState = SIMON_WIN ∨
      s.currentState = SIMON_LOSE) :
    ∃ s', step P s inp = some s' ∧
      (∀ i : Int, 0 ≤ i → i < s.currentRound → s'.simonSequence i = s.simonSequence i) ∧
      s.currentRound ≤ s'.currentRound ∧ s'.currentRound ≤ s.currentRound + 1 ∧
      (s'.currentRound = s.currentRound + 1 ↔
        roundCompleted s inp ∧ s.currentRound < MAX_ROUNDS) := by
  rcases hs with hs | hs
  · refine ⟨gameCase P s inp, step_game P s inp hs, ?_⟩
    obtain ⟨_, h | h | h | h | h⟩ := gameCase_summary P s inp
    · obtain ⟨h0, _, _, _, hr, hq, _, _⟩ := h
      rw [hr, hq]
      refine ⟨fun _ _ _ => rfl, le_refl _, by omega, ⟨fun hx => by omega, fun hx => ?_⟩⟩
      have := hx.1.2.1.1
      omega
    · obtain ⟨_, hlt, _, _, hr, hq, _, _⟩ := h
      rw [hr, hq]
      refine ⟨fun _ _ _ => rfl, le_refl _, by omega, ⟨fun hx => by omega, fun hx => ?_⟩⟩
      have := hx.1.2.2
      omega
    · obtain ⟨_, _, hmax, _, _, hr, hq, _, _⟩ := h
      rw [hr, hq]
      refine ⟨fun _ _ _ => rfl, le_refl _, by omega, ⟨fun hx => by omega, fun hx => ?_⟩⟩
      have := hx.2
      omega
    · obtain ⟨ha, hle, hmax, _, _, hr, hq, _, _⟩ := h
      rw [hr, hq]
      refine ⟨fun i _ hi => ?_, by omega, le_refl _, ⟨fun _ => ⟨⟨hs, ha, hle⟩, hmax⟩,
        fun _ => rfl⟩⟩
      exact Function.update_noteq (by omega) _ _
    · obtain ⟨hna, _, _, _, hr, hq, _, _⟩ := h
      rw [hr, hq]
      exact ⟨fun _ _ _ => rfl, le_refl _, by omega,
        ⟨fun hx => by omega, fun hx => absurd hx.1.2.1 hna⟩⟩
  · obtain ⟨tx, o, h⟩ := step_outcome P s inp hs
    refine ⟨_, h, fun _ _ _ => rfl, le_refl _, by simp, ⟨fun hx => ?_, fun hx => ?_⟩⟩
    · simp at hx
    · have hg := hx.1.1
      rcases hs with hs | hs <;> rw [hs] at hg <;> exact absurd hg (by decide)

/-- Witness for C7: the press of symbol 3 that completes round 1 in `round1State`. -/
theorem sequence_append_only_witness :
    ∃ s', step lcgBoard round1State (press 3 false) = some s' ∧
      (∀ i : Int, 0 ≤ i → i < round1State.currentRound →
        s'.simonSequence i = round1State.simonSequence i) ∧
      round1State.currentRound ≤ s'.currentRound ∧
      s'.currentRound ≤ round1State.currentRound + 1 ∧
      (s'.currentRound = round1State.currentRound + 1 ↔
        roundCompleted round1State (press 3 false) ∧
          round1State.currentRound < MAX_ROUNDS) :=
  sequence_append_only lcgBoard round1State (press 3 false) (Or.inl (by decide))

/-! ### Invariants of the reachable states -/

theorem index_invariant (P : Board G) (s : State G) (h : Reachable P s) :
    0 ≤ s.playerInputIndex ∧ s.playerInputIndex ≤ s.currentRound ∧ 1 ≤ s.currentRound ∧
    (s.currentState = SIMON_GAME → s.simonSubState = 1 →
      s.playerInputIndex < s.currentRound) := by
  induction h with
  | init => simp [powerOn]
  | @next s s' inp _ hstep ih =>
    obtain ⟨i0, i1, i2, i3⟩ := ih
    cases hs : s.currentState with
    | STATE_PLAY_SONG =>
      rw [step_playSong P s inp hs] at hstep
      rcases playSongCase_cases P s s' inp hs hstep with ⟨o, h⟩ | ⟨tx, o, h⟩
      · rw [h]; simp
      · rw [h]
        refine ⟨i0, i1, i2, fun hg => ?_⟩
        simp only [hs] at hg
        exact absurd hg (by decide)
    | SIMON_GAME =>
      rw [step_game P s inp hs] at hstep
      have hs' := Option.some.inj hstep
      subst hs'
      have i3' := i3 hs
      obtain ⟨_, h | h | h | h | h⟩ := gameCase_summary P s inp
      · obtain ⟨_, _, h1, h2, h3, _, _, _⟩ := h
        rw [h2, h3]
        exact ⟨le_refl _, by omega, i2, fun _ _ => by omega⟩
      · obtain ⟨_, hlt, h1, h2, h3, _, _, _⟩ := h
        rw [h2, h3]
        exact ⟨by omega, by omega, i2, fun _ _ => hlt⟩
      · obtain ⟨ha, _, _, h1, h2, h3, _, _, h6⟩ := h
        have := i3' ha.1
        rw [h2, h3, h6]
        exact ⟨by omega, by omega, i2, fun hg => absurd hg (by decide)⟩
      · obtain ⟨ha, _, _, h1, h2, h3, _, _, _⟩ := h
        have := i3' ha.1
        rw [h1, h2, h3]
        exact ⟨by omega, by omega, by omega, fun _ h01 => absurd h01 (by decide)⟩
      · obtain ⟨_, _, h1, h2, h3, _, _, h6⟩ := h
        rw [h1, h2, h3]
        refine ⟨i0, i1, i2, fun hg => ?_⟩
        rcases h6 with h6 | h6
        · exact i3'
        · rw [h6] at hg
          exact absurd hg (by decide)
    | SIMON_WIN =>
      obtain ⟨tx, o, h⟩ := step_outcome P s inp (Or.inl hs)
      rw [h] at hstep
      rw [← Option.some.inj hstep]
      exact ⟨i0, i1, i2, fun hg => absurd (show STATE_PLAY_SONG = SIMON_GAME from hg)
        (by decide)⟩
    | SIMON_LOSE =>
      obtain ⟨tx, o, h⟩ := step_outcome P s inp (Or.inr hs)
      rw [h] at hstep
      rw [← Option.some.inj hstep]
      exact ⟨i0, i1, i2, fun hg => absurd (show STATE_PLAY_SONG = SIMON_GAME from hg)
        (by decide)⟩

/-- C10. In every state reachable from power-on, whatever the button readings and ticks,
`0 ≤ playerInputIndex ≤ currentRound`. -/
theorem playerIndex_le_round (P : Board G) (s : State G) (h : Reachable P s) :
    0 ≤ s.playerInputIndex ∧ s.playerInputIndex ≤ s.currentRound :=
  ⟨(index_invariant P s h).1, (index_invariant P s h).2.1⟩

theorem startedState_step :
    step lcgBoard (powerOn lcgBoard) startInput = some startedState := rfl

/-- Witness for C10: the state right after the first press following power-on. -/
theorem playerIndex_le_round_witness :
    0 ≤ startedState.playerInputIndex ∧
      startedState.playerInputIndex ≤ startedState.currentRound :=
  playerIndex_le_round lcgBoard startedState (Reachable.next Reachable.init startedState_step)

theorem genState_succ_toNat (P : Board G) (seed : Nat) (r : Int) (hr : 0 ≤ r) :
    genState P seed (r + 1).toNat = (P.rand (genState P seed r.toNat)).2 := by
  have : (r + 1).toNat = r.toNat + 1 := by omega
  rw [this]
  rfl

theorem generator_invariant (P : Board G) (s : State G) (h : Reachable P s) :
    s.currentState = SIMON_GAME →
      1 ≤ s.currentRound ∧ s.rng = genState P s.randVal s.currentRound.toNat ∧
      ∀ i : Int, 0 ≤ i → i < s.currentRound →
        s.simonSequence i = symbolAt P s.randVal i.toNat := by
  induction h with
  | init => intro hg; exact absurd (show STATE_PLAY_SONG = SIMON_GAME from hg) (by decide)
  | @next s s' inp _ hstep ih =>
    cases hs : s.currentState with
    | STATE_PLAY_SONG =>
      rw [step_playSong P s inp hs] at hstep
      rcases playSongCase_cases P s s' inp hs hstep with ⟨o, h⟩ | ⟨tx, o, h⟩
      · intro _
        rw [h]
        refine ⟨le_refl _, rfl, fun i h0 h1 => ?_⟩
        have hi : i = 0 := by
          have : i < 1 := h1
          omega
        subst hi
        simp [symbolAt, genOutput, genState]
      · intro hg
        rw [h] at hg
        simp only [hs] at hg
        exact absurd hg (by decide)
    | SIMON_GAME =>
      rw [step_game P s inp hs] at hstep
      have hs' := Option.some.inj hstep
      subst hs'
      obtain ⟨j1, j2, j3⟩ := ih hs
      intro hg
      obtain ⟨hrv, h | h | h | h | h⟩ := gameCase_summary P s inp
      · obtain ⟨_, _, _, _, h3, h4, h5, _⟩ := h
        rw [hrv, h3, h4, h5]
        exact ⟨j1, j2, j3⟩
      · obtain ⟨_, _, _, _, h3, h4, h5, _⟩ := h
        rw [hrv, h3, h4, h5]
        exact ⟨j1, j2, j3⟩
      · obtain ⟨_, _, _, _, _, h3, h4, h5, _⟩ := h
        rw [hrv, h3, h4, h5]
        exact ⟨j1, j2, j3⟩
      · obtain ⟨_, _, _, _, _, h3, h4, h5, _⟩ := h
        rw [hrv, h3, h4, h5]
        refine ⟨by omega, ?_, fun i h0 h1 => ?_⟩
        · rw [genState_succ_toNat P s.randVal s.currentRound (by omega), j2]
        · by_cases hi : i = s.currentRound
          · subst hi
            rw [Function.update_same, j2]
            rfl
          · rw [Function.update_noteq hi]
            exact j3 i h0 (by omega)
      · obtain ⟨_, _, _, _, h3, h4, h5, _⟩ := h
        rw [hrv, h3, h4, h5]
        exact ⟨j1, j2, j3⟩
    | SIMON_WIN =>
      obtain ⟨tx, o, h⟩ := step_outcome P s inp (Or.inl hs)
      rw [h] at hstep
      rw [← Option.some.inj hstep]
      intro hg
      exact absurd (show STATE_PLAY_SONG = SIMON_GAME from hg) (by decide)
    | SIMON_LOSE =>
      obtain ⟨tx, o, h⟩ := step_outcome P s inp (Or.inr hs)
      rw [h] at hstep
      rw [← Option.some.inj hstep]
      intro hg
      exact absurd (show STATE_PLAY_SONG = SIMON_GAME from hg) (by decide)

theorem symbolAt_range (P : Board G) (seed i : Nat) :
    1 ≤ symbolAt P seed i ∧ symbolAt P seed i ≤ 4 := by
  unfold symbolAt
  constructor <;> omega

/-- C9. In every state reachable from power-on that is in `SIMON_GAME` with
`currentRound = r`, every `simonSequence[i]` with `0 ≤ i < r` lies in 1..4 and equals
`(g_i % 4) + 1`, where `g_i` is the `(i + 1)`-th output of the generator since it was seeded
at game start (the seed is `randVal`, which a game never changes); hence two games with the
same seed agree on every element that both have generated. -/
theorem sequence_from_generator (P : Board G) (s : State G) (h : Reachable P s)
    (hg : s.currentState = SIMON_GAME) :
    (∀ i : Int, 0 ≤ i → i < s.currentRound →
      1 ≤ s.simonSequence i ∧ s.simonSequence i ≤ 4 ∧
      s.simonSequence i = ((genOutput P s.randVal i.toNat % 4 : Nat) : Int) + 1) ∧
    (∀ s2 : State G, Reachable P s2 → s2.currentState = SIMON_GAME →
      s2.randVal = s.randVal →
      ∀ i : Int, 0 ≤ i → i < s.currentRound → i < s2.currentRound →
        s2.simonSequence i = s.simonSequence i) := by
  obtain ⟨_, _, j3⟩ := generator_invariant P s h hg
  constructor
  · intro i h0 h1
    rw [j3 i h0 h1]
    exact ⟨(symbolAt_range P _ _).1, (symbolAt_range P _ _).2, rfl⟩
  · intro s2 h2 hg2 hseed i h0 h1 h1'
    obtain ⟨_, _, k3⟩ := generator_invariant P s2 h2 hg2
    rw [j3 i h0 h1, k3 i h0 h1', hseed]

/-- Witness for C9: the state right after the first press following power-on. -/
theorem sequence_from_generator_witness :
    (∀ i : Int, 0 ≤ i → i < startedState.currentRound →
      1 ≤ startedState.simonSequence i ∧ startedState.simonSequence i ≤ 4 ∧
      startedState.simonSequence i =
        ((genOutput lcgBoard startedState.randVal i.toNat % 4 : Nat) : Int) + 1) ∧
    (∀ s2 : State Nat, Reachable lcgBoard s2 → s2.currentState = SIMON_GAME →
      s2.randVal = startedState.randVal →
      ∀ i : Int, 0 ≤ i → i < startedState.currentRound → i < s2.currentRound →
        s2.simonSequence i = startedState.simonSequence i) :=
  sequence_from_generator lcgBoard startedState
    (Reachable.next Reachable.init startedState_step) rfl

/-! ### A game played well -/

theorem round_cases (r : Int) (h1 : 1 ≤ r) (h2 : r ≤ MAX_ROUNDS) :
    r = 1 ∨ r = 2 ∨ r = 3 ∨ r = 4 ∨ r = 5 ∨ r = 6 ∨ r = 7 ∨ r = 8 ∨ r = 9 ∨ r = 10 := by
  unfold MAX_ROUNDS at h2
  omega

theorem timeoutUpdate_tickVal (s : State G) (inp : Input) :
    timeoutUpdate s inp =
      { s with timerTicked := false,
               inputTimeoutCounter := s.inputTimeoutCounter + tickVal inp,
               currentState :=
                 if s.inputTimeoutCounter + tickVal inp > INPUT_TIMEOUT_TICKS
                 then SIMON_LOSE else s.currentState } := by
  rw [timeoutUpdate_eq]
  unfold tickVal
  cases inp.tick <;> simp

theorem playInv_noPress (P : Board G) (s : State G) (pressed : Bool) (c k : Nat)
    (inp : Input) (hinv : PlayInv s pressed c k) (hb : inp.gameBtn = 0)
    (hc : c + tickVal inp ≤ 200) :
    PlayInv (gameCase P s inp) false (c + tickVal inp) k := by
  obtain ⟨hs, hr1, hr2, h | h⟩ := hinv
  · obtain ⟨h0, _, hk⟩ := h
    obtain ⟨tx, o, hg⟩ := gameCase_display P s inp h0 hb
    rw [hg]
    refine ⟨hs, hr1, hr2, Or.inr ⟨rfl, le_refl _, ?_, ?_, fun _ => rfl, ?_⟩⟩
    · exact hr1
    · exact Int.natCast_nonneg _
    · simpa using hk
  · obtain ⟨h1, hi0, hi1, hcnt, _, hk⟩ := h
    rw [gameCase_none P s inp h1 hb, timeoutUpdate_tickVal]
    have hle : ¬ (s.inputTimeoutCounter + (tickVal inp : Int) > INPUT_TIMEOUT_TICKS) := by
      unfold INPUT_TIMEOUT_TICKS
      omega
    refine ⟨?_, hr1, hr2, Or.inr ⟨h1, hi0, hi1, ?_, fun _ => rfl, hk⟩⟩
    · simp only [hle, if_false]
      exact hs
    · simp only
      push_cast
      omega

theorem playInv_press (P : Board G) (s : State G) (c k : Nat) (inp : Input)
    (hinv : PlayInv s false c k) (hb : inp.gameBtn ≠ 0)
    (hm : (inp.gameBtn : Int) = s.simonSequence s.playerInputIndex) :
    (k < 54 ∧ PlayInv (gameCase P s inp) true (tickVal inp) (k + 1)) ∨
    (k = 54 ∧ (gameCase P s inp).currentState = SIMON_WIN ∧
      (gameCase P s inp).currentRound = 10 ∧ (gameCase P s inp).playerInputIndex = 10) := by
  obtain ⟨hs, hr1, hr2, h | h⟩ := hinv
  · exact absurd h.2.1 (by decide)
  · obtain ⟨h1, hi0, hi1, hcnt, hprev, hk⟩ := h
    have hp := hprev rfl
    have hzero : ¬ ((0 : Int) + (tickVal inp : Int) > INPUT_TIMEOUT_TICKS) := by
      unfold INPUT_TIMEOUT_TICKS tickVal
      split_ifs <;> simp
    by_cases hr : s.currentRound ≤ s.playerInputIndex + 1
    · by_cases hmax : s.currentRound < MAX_ROUNDS
      · left
        obtain ⟨tx, o, hg⟩ := gameCase_fresh_advance P s inp h1 hb hp hm hr hmax
        rw [hg, timeoutUpdate_tickVal]
        have hi : s.playerInputIndex = s.currentRound - 1 := by omega
        rw [hi] at hk
        have hmax' := hmax
        unfold MAX_ROUNDS at hmax'
        rcases round_cases _ hr1 hr2 with e | e | e | e | e | e | e | e | e | e <;>
          rw [e] at hk hmax' <;>
          refine ⟨by omega, ?_, ?_, ?_, Or.inl ⟨rfl, rfl, ?_⟩⟩ <;>
          simp only [hzero, if_false, e, hs, MAX_ROUNDS] <;> omega
      · right
        have hmax' := not_lt.mp hmax
        obtain ⟨tx, o, hg⟩ := gameCase_fresh_win P s inp h1 hb hp hm hr hmax'
        rw [hg]
        unfold MAX_ROUNDS at hmax' hr2
        have e : s.currentRound = 10 := by omega
        have hi : s.playerInputIndex = 9 := by omega
        rw [e, hi] at hk
        exact ⟨by omega, rfl, e, by simp only; omega⟩
    · left
      have hr' := not_le.mp hr
      obtain ⟨tx, o, hg⟩ := gameCase_fresh_accept P s inp h1 hb hp hm hr'
      rw [hg, timeoutUpdate_tickVal]
      unfold MAX_ROUNDS at hr2
      rcases round_cases _ hr1 (by unfold MAX_ROUNDS; exact hr2) with
          e | e | e | e | e | e | e | e | e | e <;>
        rw [e] at hk hr' <;>
        refine ⟨by omega, ?_, hr1, ?_, Or.inr ⟨h1, ?_, ?_, ?_, ?_, ?_⟩⟩ <;>
        simp only [hzero, if_false, e, hs, MAX_ROUNDS] <;>
        first | omega | (push_cast; omega) | (intro hcontra; exact absurd hcontra (by decide))

theorem playInv_le (s : State G) (pressed : Bool) (c k : Nat) (h : PlayInv s pressed c k) :
    k ≤ 54 := by
  obtain ⟨_, hr1, hr2, h | h⟩ := h
  · obtain ⟨_, _, hk⟩ := h
    rcases round_cases _ hr1 hr2 with e | e | e | e | e | e | e | e | e | e <;>
      rw [e] at hk <;> omega
  · obtain ⟨_, hi0, hi1, _, _, hk⟩ := h
    rcases round_cases _ hr1 hr2 with e | e | e | e | e | e | e | e | e | e <;>
      rw [e] at hk hi1 <;> omega

theorem playInv_at (s : State G) (pressed : Bool) (c : Nat) (r : Int) (i : Int) (k : Nat)
    (h : PlayInv s pressed c k) (hr : 1 ≤ r) (hr2 : r ≤ MAX_ROUNDS) (hi0 : 0 ≤ i) (hi : i < r)
    (hk : 2 * (k : Int) = r * (r - 1) + 2 * i) (h1 : s.simonSubState = 1) :
    s.currentRound = r ∧ s.playerInputIndex = i := by
  obtain ⟨_, hr1, hr2', h | h⟩ := h
  · have := h.1
    omega
  · obtain ⟨_, hj0, hj1, _, _, hk'⟩ := h
    rcases round_cases _ hr1 hr2' with e | e | e | e | e | e | e | e | e | e <;>
      rcases round_cases _ hr hr2 with f | f | f | f | f | f | f | f | f | f <;>
      rw [e] at hk' hj1 ⊢ <;> rw [f] at hk hi ⊢ <;> omega

theorem endsWithPress_pos : ∀ (l : List Input), endsWithPress l = true → 1 ≤ pressCount l
  | [], h => by simp [endsWithPress] at h
  | [inp], h => by
    have : inp.gameBtn ≠ 0 := by simpa [endsWithPress] using h
    simp [pressCount, this]
  | _ :: inp :: rest, h => by
    have := endsWithPress_pos (inp :: rest) (by simpa [endsWithPress] using h)
    unfold pressCount
    omega

theorem fresh_cons (pressed : Bool) (inp : Input) (rest : List Input)
    (h : freshPresses pressed (inp :: rest) = true) :
    (inp.gameBtn ≠ 0 → pressed = false) ∧ freshPresses (inp.gameBtn != 0) rest = true := by
  simp only [freshPresses, Bool.and_eq_true, Bool.or_eq_true, beq_iff_eq,
    Bool.not_eq_true'] at h
  exact ⟨fun hb => h.1.resolve_left hb, h.2⟩

theorem follows_cons (P : Board G) (s : State G) (inp : Input) (rest : List Input)
    (hs : s.currentState = SIMON_GAME) (h : followsSequence P s (inp :: rest) = true) :
    (inp.gameBtn ≠ 0 → (inp.gameBtn : Int) = s.simonSequence s.playerInputIndex) ∧
      followsSequence P (gameCase P s inp) rest = true := by
  simp only [followsSequence, step_game P s inp hs, Bool.and_eq_true, Bool.or_eq_true,
    beq_iff_eq, decide_eq_true_eq] at h
  exact ⟨fun hb => h.1.resolve_left hb, h.2⟩

/-- One iteration of a game played well keeps the game going, or is the press that wins it. -/
theorem playInv_step (P : Board G) (s : State G) (pressed : Bool) (c k : Nat) (inp : Input)
    (rest : List Input) (hinv : PlayInv s pressed c k)
    (hf : freshPresses pressed (inp :: rest) = true)
    (ht : ticksWithin 200 c (inp :: rest) = true)
    (hq : followsSequence P s (inp :: rest) = true) :
    ∃ pressed' c',
      freshPresses pressed' rest = true ∧ ticksWithin 200 c' rest = true ∧
      followsSequence P (gameCase P s inp) rest = true ∧
      ((inp.gameBtn = 0 ∧ PlayInv (gameCase P s inp) pressed' c' k) ∨
       (inp.gameBtn ≠ 0 ∧ k < 54 ∧ PlayInv (gameCase P s inp) pressed' c' (k + 1)) ∨
       (inp.gameBtn ≠ 0 ∧ k = 54 ∧ (gameCase P s inp).currentState = SIMON_WIN ∧
         (gameCase P s inp).currentRound = 10 ∧ (gameCase P s inp).playerInputIndex = 10)) := by
  obtain ⟨hf1, hf2⟩ := fresh_cons pressed inp rest hf
  obtain ⟨hq1, hq2⟩ := follows_cons P s inp rest hinv.1 hq
  by_cases hb : inp.gameBtn = 0
  · simp only [ticksWithin, hb, ne_eq, not_true_eq_false, if_false, Bool.and_eq_true,
      decide_eq_true_eq] at ht
    refine ⟨false, c + tickVal inp, ?_, ht.2, hq2, Or.inl ⟨hb, ?_⟩⟩
    · simpa [hb] using hf2
    · exact playInv_noPress P s pressed c k inp hinv hb ht.1
  · simp only [ticksWithin, hb, ne_eq, not_false_eq_true, if_true] at ht
    have hp := hf1 hb
    subst hp
    refine ⟨true, tickVal inp, ?_, ht, hq2, Or.inr ?_⟩
    · have hne : (inp.gameBtn != 0) = true := by simpa using hb
      rw [hne] at hf2
      exact hf2
    · rcases playInv_press P s c k inp hinv hb (hq1 hb) with h | h
      · exact Or.inl ⟨hb, h⟩
      · exact Or.inr ⟨hb, h⟩

/-- A game played well is still on as long as fewer than 55 presses have been made. -/
theorem play_keeps_inv (P : Board G) : ∀ (ins : List Input) (s : State G) (pressed : Bool)
    (c k : Nat), PlayInv s pressed c k → freshPresses pressed ins = true →
    ticksWithin 200 c ins = true → followsSequence P s ins = true →
    k + pressCount ins ≤ 54 →
    ∃ s' pressed' c', run P s ins = some s' ∧ PlayInv s' pressed' c' (k + pressCount ins) := by
  intro ins
  induction ins with
  | nil => intro s pressed c k hinv _ _ _ _; exact ⟨s, pressed, c, rfl, hinv⟩
  | cons inp rest ih =>
    intro s pressed c k hinv hf ht hq hk
    obtain ⟨p', c', hf', ht', hq', h⟩ := playInv_step P s pressed c k inp rest hinv hf ht hq
    rw [run_cons_game P s inp rest hinv.1]
    rcases h with ⟨hb, h⟩ | ⟨hb, _, h⟩ | ⟨hb, h54, _⟩
    · have hpc : pressCount (inp :: rest) = pressCount rest := by simp [pressCount, hb]
      rw [hpc] at hk ⊢
      exact ih _ p' c' k h hf' ht' hq' hk
    · have hpc : k + pressCount (inp :: rest) = k + 1 + pressCount rest := by
        simp [pressCount, hb]; omega
      rw [hpc] at hk ⊢
      exact ih _ p' c' (k + 1) h hf' ht' hq' hk
    · have hpc : pressCount (inp :: rest) = 1 + pressCount rest := by simp [pressCount, hb]
      omega

/-- A game played well is won by its 55th press, and is on before it. -/
theorem play_to_win (P : Board G) : ∀ (ins : List Input) (s : State G) (pressed : Bool)
    (c k : Nat), PlayInv s pressed c k → freshPresses pressed ins = true →
    ticksWithin 200 c ins = true → followsSequence P s ins = true →
    k + pressCount ins = 55 → endsWithPress ins = true →
    (∃ s', run P s ins = some s' ∧ s'.currentState = SIMON_WIN ∧ s'.currentRound = 10 ∧
      s'.playerInputIndex = 10) ∧
    ∀ n, n < ins.length →
      ∃ sn, run P s (ins.take n) = some sn ∧ sn.currentState = SIMON_GAME := by
  intro ins
  induction ins with
  | nil => intro s pressed c k _ _ _ _ _ he; simp [endsWithPress] at he
  | cons inp rest ih =>
    intro s pressed c k hinv hf ht hq hk he
    obtain ⟨p', c', hf', ht', hq', h⟩ := playInv_step P s pressed c k inp rest hinv hf ht hq
    have hrun : ∀ l, run P s (inp :: l) = run P (gameCase P s inp) l :=
      fun l => run_cons_game P s inp l hinv.1
    have hpref : ∀ (Q : State G → Prop),
        (∀ m, m < rest.length →
          ∃ sn, run P (gameCase P s inp) (rest.take m) = some sn ∧ Q sn) → Q s →
        ∀ n, n < (inp :: rest).length → ∃ sn, run P s ((inp :: rest).take n) = some sn ∧ Q sn := by
      intro Q hrest h0 n hn
      cases n with
      | zero => exact ⟨s, rfl, h0⟩
      | succ m =>
        rw [List.take_succ_cons, hrun]
        exact hrest m (by simpa using hn)
    have hrest_ne : pressCount rest ≥ 1 → endsWithPress rest = true := by
      intro hpos
      cases rest with
      | nil => simp [pressCount] at hpos
      | cons a l => simpa [endsWithPress] using he
    rcases h with ⟨hb, h⟩ | ⟨hb, _, h⟩ | ⟨hb, h54, hw, hr, hi⟩
    · have hpc : pressCount (inp :: rest) = pressCount rest := by simp [pressCount, hb]
      rw [hpc] at hk
      have hle := playInv_le _ _ _ _ h
      obtain ⟨hfin, hpre⟩ := ih _ p' c' k h hf' ht' hq' hk (hrest_ne (by omega))
      rw [hrun]
      exact ⟨hfin, hpref _ hpre hinv.1⟩
    · have hpc : pressCount (inp :: rest) = 1 + pressCount rest := by simp [pressCount, hb]
      rw [hpc] at hk
      have hle := playInv_le _ _ _ _ h
      obtain ⟨hfin, hpre⟩ := ih _ p' c' (k + 1) h hf' ht' hq' (by omega) (hrest_ne (by omega))
      rw [hrun]
      exact ⟨hfin, hpref _ hpre hinv.1⟩
    · have hpc : pressCount (inp :: rest) = 1 + pressCount rest := by simp [pressCount, hb]
      rw [hpc] at hk
      have hnil : rest = [] := by
        cases rest with
        | nil => rfl
        | cons a l =>
          have := endsWithPress_pos (a :: l) (by simpa [endsWithPress] using he)
          omega
      subst hnil
      refine ⟨⟨gameCase P s inp, by rw [hrun]; rfl, hw, hr, hi⟩, ?_⟩
      intro n hn
      have hn0 : n = 0 := by simpa using hn
      subst hn0
      exact ⟨s, rfl, hinv.1⟩

theorem playInv_start (P : Board G) (sIdle s0 : State G) (i0 : Input)
    (hb : i0.btn ≠ 0) (hidle : sIdle.currentState = STATE_PLAY_SONG)
    (hstart : step P sIdle i0 = some s0) : PlayInv s0 true 0 0 := by
  rw [step_playSong P sIdle i0 hidle] at hstart
  obtain ⟨o, h⟩ := playSongCase_some_press P sIdle s0 i0 hb hstart
  rw [h]
  exact ⟨rfl, le_refl _, (show (1 : Int) ≤ MAX_ROUNDS by decide), Or.inl ⟨rfl, rfl, by simp⟩⟩

/-- C1. End-to-end win: from the state produced by the Idle-to-playing transition, for every
generator, if every press of the run is a fresh one (the iteration before it saw no button),
is the expected symbol `simonSequence[playerInputIndex]`, comes with at most 200 ticks since
the press before it, and the run makes 55 presses (1 + 2 + ... + 10, the symbols of rounds 1 to
10) and ends with the last of them, then the run ends in `SIMON_WIN` with `currentRound = 10`
and `playerInputIndex = 10`, and after every shorter part of the run the state is
`SIMON_GAME`: the win comes exactly with the last press and `SIMON_LOSE` is never passed. -/
theorem win_by_correct_play (P : Board G) (sIdle s0 : State G) (i0 : Input)
    (ins : List Input) (hidle : sIdle.currentState = STATE_PLAY_SONG) (hb : i0.btn ≠ 0)
    (hstart : step P sIdle i0 = some s0)
    (hfresh : freshPresses true ins = true) (hticks : ticksWithin 200 0 ins = true)
    (hfollow : followsSequence P s0 ins = true)
    (hcount : pressCount ins = 55) (hlast : endsWithPress ins = true) :
    (∃ s', run P s0 ins = some s' ∧ s'.currentState = SIMON_WIN ∧ s'.currentRound = 10 ∧
      s'.playerInputIndex = 10) ∧
    ∀ n, n < ins.length →
      ∃ sn, run P s0 (ins.take n) = some sn ∧ sn.currentState = SIMON_GAME :=
  play_to_win P ins s0 true 0 0 (playInv_start P sIdle s0 i0 hb hidle hstart) hfresh hticks
    hfollow (by omega) hlast

/-- Witness for C1: the run `winInputs` from the first press after power-on on `lcgBoard`. -/
theorem win_by_correct_play_witness :
    (∃ s', run lcgBoard startedState winInputs = some s' ∧ s'.currentState = SIMON_WIN ∧
      s'.currentRound = 10 ∧ s'.playerInputIndex = 10) ∧
    ∀ n, n < winInputs.length →
      ∃ sn, run lcgBoard startedState (winInputs.take n) = some sn ∧
        sn.currentState = SIMON_GAME :=
  win_by_correct_play lcgBoard (powerOn lcgBoard) startedState startInput winInputs rfl
    (by decide) startedState_step (by decide) (by decide) (by decide) (by decide) (by decide)

/-- C2. Wrong input loses immediately: in an input-waiting state with no button registered
as held, a pressed button `1..4` other than `simonSequence[playerInputIndex]` puts the game
in `SIMON_LOSE` and leaves `playerInputIndex`, `currentRound`, the timeout counter and the
whole sequence unchanged. In particular, when the state was reached from a game start by a
correct play of 14 presses (rounds 1 to 4 and the first four symbols of round 5), the game is
lost with `currentRound = 5`, at the fifth symbol. -/
theorem wrong_press_loses (P : Board G) (s : State G) (inp : Input)
    (hs : s.currentState = SIMON_GAME) (h1 : s.simonSubState = 1)
    (hp : s.simon_prevButton = 0) (hb1 : 1 ≤ inp.gameBtn) (hb4 : inp.gameBtn ≤ 4)
    (hw : (inp.gameBtn : Int) ≠ s.simonSequence s.playerInputIndex) :
    ∃ s', step P s inp = some s' ∧ s'.currentState = SIMON_LOSE ∧
      s'.playerInputIndex = s.playerInputIndex ∧ s'.currentRound = s.currentRound ∧
      s'.inputTimeoutCounter = s.inputTimeoutCounter ∧
      s'.simonSequence = s.simonSequence ∧
      ∀ (sIdle s0 : State G) (i0 : Input) (ins : List Input),
        sIdle.currentState = STATE_PLAY_SONG → i0.btn ≠ 0 → step P sIdle i0 = some s0 →
        freshPresses true ins = true → ticksWithin 200 0 ins = true →
        followsSequence P s0 ins = true → pressCount ins = 14 → run P s0 ins = some s →
        s'.currentRound = 5 ∧ s'.playerInputIndex = 4 := by
  obtain ⟨tx, o, h⟩ := gameCase_fresh_wrong P s inp h1 (by omega) hp hw
  refine ⟨gameCase P s inp, step_game P s inp hs, ?_⟩
  rw [h]
  refine ⟨rfl, rfl, rfl, rfl, rfl, ?_⟩
  intro sIdle s0 i0 ins hidle hb hstart hfresh hticks hfollow hcount hrun
  obtain ⟨s2, p', c', hrun2, hinv⟩ := play_keeps_inv P ins s0 true 0 0
    (playInv_start P sIdle s0 i0 hb hidle hstart) hfresh hticks hfollow (by omega)
  rw [hrun] at hrun2
  have hs2 := Option.some.inj hrun2
  subst hs2
  rw [hcount] at hinv
  exact playInv_at s p' c' 5 4 (0 + 14) hinv (by decide) (by decide) (by decide) (by decide)
    (by decide) h1

theorem round5State_run : run lcgBoard startedState round5Inputs = some round5State := by
  have hs : (run lcgBoard startedState round5Inputs).isSome = true := by decide
  obtain ⟨x, hx⟩ := Option.isSome_iff_exists.mp hs
  unfold round5State
  rw [hx]
  rfl

/-- Witness for C2: after 14 correct presses on `lcgBoard` the expected symbol is 3, and
pressing button 1 loses the game in round 5. -/
theorem wrong_press_loses_witness :
    ∃ s', step lcgBoard round5State (press 1 false) = some s' ∧
      s'.currentState = SIMON_LOSE ∧ s'.currentRound = 5 ∧ s'.playerInputIndex = 4 := by
  obtain ⟨s', h1, h2, _, _, _, _, h7⟩ := wrong_press_loses lcgBoard round5State
    (press 1 false) (by decide) (by decide) (by decide) (by decide) (by decide) (by decide)
  have h := h7 (powerOn lcgBoard) startedState startInput round5Inputs rfl (by decide)
    startedState_step (by decide) (by decide) (by decide) (by decide) round5State_run
  exact ⟨s', h1, h2, h.1, h.2⟩

/-! ### A held button -/

theorem run_cons_some (P : Board G) (s s' : State G) (inp : Input) (rest : List Input)
    (h : run P s (inp :: rest) = some s') :
    ∃ s1, step P s inp = some s1 ∧ run P s1 rest = some s' := by
  unfold run at h
  cases hstep : step P s inp with
  | none => rw [hstep] at h; exact absurd h (by simp)
  | some s1 => rw [hstep] at h; exact ⟨s1, rfl, h⟩

theorem held_keeps_index (P : Board G) (b : Nat) (i : Int) (hb : b ≠ 0) :
    ∀ (ins : List Input) (s s' : State G),
    s.playerInputIndex = i →
    ((s.currentState = SIMON_GAME ∧ s.simonSubState = 1 ∧ s.simon_prevButton = b) ∨
      s.currentState = SIMON_LOSE ∨ s.currentState = STATE_PLAY_SONG) →
    (∀ inp ∈ ins, constReads b inp) → run P s ins = some s' → s'.playerInputIndex = i := by
  intro ins
  induction ins with
  | nil =>
    intro s s' hi _ _ hrun
    rw [← Option.some.inj hrun]
    exact hi
  | cons inp rest ih =>
    intro s s' hi hq hconst hrun
    obtain ⟨s1, hstep, hrest⟩ := run_cons_some P s s' inp rest hrun
    obtain ⟨hc0, hc1, _, _, hc2⟩ := hconst inp (List.mem_cons_self _ _)
    have hconst' : ∀ x ∈ rest, constReads b x := fun x hx =>
      hconst x (List.mem_cons_of_mem _ hx)
    rcases hq with ⟨hs, h1, hp⟩ | hs | hs
    · rw [step_game P s inp hs] at hstep
      have e := Option.some.inj hstep
      subst e
      have hg := gameCase_held P s inp h1 (by rw [hc1]; exact hb) (by rw [hc1, hp])
      rw [timeoutUpdate_eq] at hg
      refine ih _ s' (by rw [hg]; exact hi) ?_ hconst' hrest
      rw [hg]
      by_cases hto : s.inputTimeoutCounter + (if inp.tick then 1 else 0) > INPUT_TIMEOUT_TICKS
      · refine Or.inr (Or.inl ?_)
        simp only [hto, if_true]
      · refine Or.inl ⟨?_, h1, hp⟩
        simp only [hto, if_false]
        exact hs
    · obtain ⟨tx, o, h⟩ := step_outcome P s inp (Or.inr hs)
      rw [h] at hstep
      have e := Option.some.inj hstep
      exact ih s1 s' (by rw [← e]; exact hi) (Or.inr (Or.inr (by rw [← e]))) hconst' hrest
    · rw [step_playSong P s inp hs] at hstep
      have hno : 0 ∉ inp.releaseReads := fun h0 => hb (hc2 0 h0).symm
      simp [playSongCase, hc0, hb, waitRelease_none _ hno] at hstep

theorem held_in_time (P : Board G) (b : Nat) (hb : b ≠ 0) :
    ∀ (ins : List Input) (s : State G),
    s.currentState = SIMON_GAME → s.simonSubState = 1 → s.simon_prevButton = b →
    (∀ inp ∈ ins, constReads b inp) →
    s.inputTimeoutCounter + tickCount ins ≤ INPUT_TIMEOUT_TICKS →
    ∃ s', run P s ins = some s' ∧ s'.currentState = SIMON_GAME ∧
      s'.playerInputIndex = s.playerInputIndex := by
  intro ins
  induction ins with
  | nil => intro s hs _ _ _ _; exact ⟨s, rfl, hs, rfl⟩
  | cons inp rest ih =>
    intro s hs h1 hp hconst hle
    obtain ⟨_, hc1, _, _, _⟩ := hconst inp (List.mem_cons_self _ _)
    have hg := gameCase_held P s inp h1 (by rw [hc1]; exact hb) (by rw [hc1, hp])
    rw [timeoutUpdate_tickVal] at hg
    have htc : (tickCount (inp :: rest) : Int) = tickVal inp + tickCount rest := by
      simp [tickCount]
    rw [htc] at hle
    have hno : ¬ (s.inputTimeoutCounter + (tickVal inp : Int) > INPUT_TIMEOUT_TICKS) := by
      have := Int.natCast_nonneg (tickCount rest)
      omega
    simp only [hno, if_false] at hg
    obtain ⟨s', hr, hs', hi'⟩ := ih (gameCase P s inp) (by rw [hg]; exact hs)
      (by rw [hg]; exact h1) (by rw [hg]; exact hp)
      (fun x hx => hconst x (List.mem_cons_of_mem _ hx)) (by rw [hg]; simp only; omega)
    refine ⟨s', ?_, hs', ?_⟩
    · rw [run_cons_game P s inp rest hs]; exact hr
    · rw [hi', hg]

/-- C4. A held button is accepted once: in an input-waiting state with no button registered,
when the expected symbol `b` is pressed with `playerInputIndex + 1 < currentRound` and every
read of the buttons keeps returning `b`, then after any number `n ≥ 1` of completed iterations
`playerInputIndex` is its initial value plus 1; and when at most 200 ticks are pending over
the run, the `n` iterations do complete and the game is still on. -/
theorem held_button_once (P : Board G) (s : State G) (b : Nat) (ins : List Input)
    (hs : s.currentState = SIMON_GAME) (h1 : s.simonSubState = 1)
    (hp : s.simon_prevButton = 0) (hb : b ≠ 0)
    (hm : (b : Int) = s.simonSequence s.playerInputIndex)
    (hr : s.playerInputIndex + 1 < s.currentRound)
    (hn : 1 ≤ ins.length) (hconst : ∀ inp ∈ ins, constReads b inp) :
    (∀ s', run P s ins = some s' → s'.playerInputIndex = s.playerInputIndex + 1) ∧
    (tickCount ins ≤ 200 →
      ∃ s', run P s ins = some s' ∧ s'.currentState = SIMON_GAME ∧
        s'.playerInputIndex = s.playerInputIndex + 1) := by
  cases ins with
  | nil => simp at hn
  | cons inp rest =>
    obtain ⟨_, hc1, _, _, _⟩ := hconst inp (List.mem_cons_self _ _)
    have hconst' : ∀ x ∈ rest, constReads b x := fun x hx =>
      hconst x (List.mem_cons_of_mem _ hx)
    obtain ⟨tx, o, hg⟩ := gameCase_fresh_accept P s inp h1 (by rw [hc1]; exact hb) hp
      (by rw [hc1]; exact hm) hr
    rw [timeoutUpdate_tickVal] at hg
    have hz : ¬ ((0 : Int) + (tickVal inp : Int) > INPUT_TIMEOUT_TICKS) := by
      unfold INPUT_TIMEOUT_TICKS tickVal
      split_ifs <;> simp
    simp only [hz, if_false] at hg
    rw [run_cons_game P s inp rest hs]
    constructor
    · intro s' hrun
      exact held_keeps_index P b (s.playerInputIndex + 1) hb rest (gameCase P s inp) s'
        (by rw [hg]) (Or.inl ⟨by rw [hg]; exact hs, by rw [hg]; exact h1,
          by rw [hg]; simp only; rw [hc1]⟩) hconst' hrun
    · intro ht
      have htc : tickCount (inp :: rest) = tickVal inp + tickCount rest := rfl
      rw [htc] at ht
      obtain ⟨s', hrun, hs', hi'⟩ := held_in_time P b hb rest (gameCase P s inp)
        (by rw [hg]; exact hs) (by rw [hg]; exact h1) (by rw [hg]; simp only; rw [hc1])
        hconst' (by rw [hg]; simp only; unfold INPUT_TIMEOUT_TICKS; omega)
      exact ⟨s', hrun, hs', by rw [hi', hg]⟩

/-- Witness for C4: button 3 held for five ticking iterations in `awaitState`. -/
theorem held_button_once_witness :
    (∀ s', run lcgBoard awaitState (List.replicate 5 (press 3 true)) = some s' →
      s'.playerInputIndex = awaitState.playerInputIndex + 1) ∧
    (tickCount (List.replicate 5 (press 3 true)) ≤ 200 →
      ∃ s', run lcgBoard awaitState (List.replicate 5 (press 3 true)) = some s' ∧
        s'.currentState = SIMON_GAME ∧
        s'.playerInputIndex = awaitState.playerInputIndex + 1) :=
  held_button_once lcgBoard awaitState 3 (List.replicate 5 (press 3 true)) (by decide)
    (by decide) (by decide) (by decide) (by decide) (by decide) (by decide)
    (by
      intro inp hi
      rw [List.eq_of_mem_replicate hi]
      exact ⟨rfl, rfl, rfl, rfl, by simp [press]⟩)

/-! ### Entering the display phase, and the bounds of the round -/

theorem reachable_getD_run (P : Board G) (s : State G) (ins : List Input)
    (h : Reachable P s) : Reachable P ((run P s ins).getD s) := by
  cases hr : run P s ins with
  | none => exact h
  | some x => exact reachable_run P ins s x h hr

theorem startedState_reachable : Reachable lcgBoard startedState :=
  Reachable.next Reachable.init startedState_step

theorem gameCase_keeps (P : Board G) (s : State G) (inp : Input) :
    (gameCase P s inp).powerOnPattern = s.powerOnPattern := by
  by_cases h0 : s.simonSubState = 0
  · by_cases hb : inp.gameBtn = 0
    · obtain ⟨tx, o, h⟩ := gameCase_display P s inp h0 hb
      rw [h]
    · rw [gameCase_display_wait P s inp h0 hb]
  · by_cases h1 : s.simonSubState = 1
    · by_cases hb : inp.gameBtn = 0
      · rw [gameCase_none P s inp h1 hb, timeoutUpdate_eq]
      · by_cases hp : s.simon_prevButton = 0
        · by_cases hm : (inp.gameBtn : Int) = s.simonSequence s.playerInputIndex
          · by_cases hr : s.currentRound ≤ s.playerInputIndex + 1
            · by_cases hmax : s.currentRound < MAX_ROUNDS
              · obtain ⟨tx, o, h⟩ := gameCase_fresh_advance P s inp h1 hb hp hm hr hmax
                rw [h, timeoutUpdate_eq]
              · obtain ⟨tx, o, h⟩ := gameCase_fresh_win P s inp h1 hb hp hm hr
                  (not_lt.mp hmax)
                rw [h]
            · obtain ⟨tx, o, h⟩ := gameCase_fresh_accept P s inp h1 hb hp hm (not_le.mp hr)
              rw [h, timeoutUpdate_eq]
          · obtain ⟨tx, o, h⟩ := gameCase_fresh_wrong P s inp h1 hb hp hm
            rw [h]
        · by_cases hc : (inp.gameBtn : Int) = s.simon_prevButton
          · rw [gameCase_held P s inp h1 hb hc, timeoutUpdate_eq]
          · by_cases hm : (inp.gameBtn : Int) = s.simonSequence s.playerInputIndex
            · obtain ⟨tx, o, h⟩ := gameCase_changed_match P s inp h1 hb hp hc hm
              rw [h, timeoutUpdate_eq]
            · obtain ⟨tx, o, h⟩ := gameCase_changed_wrong P s inp h1 hb hp hc hm
              rw [h]
    · rw [gameCase_other P s inp h0 h1]

theorem round_le_max (P : Board G) (s : State G) (h : Reachable P s) :
    s.currentRound ≤ MAX_ROUNDS := by
  induction h with
  | init => simp [powerOn, MAX_ROUNDS]
  | @next s s' inp _ hstep ih =>
    cases hs : s.currentState with
    | STATE_PLAY_SONG =>
      rw [step_playSong P s inp hs] at hstep
      rcases playSongCase_cases P s s' inp hs hstep with ⟨o, h⟩ | ⟨tx, o, h⟩
      · rw [h]; simp [MAX_ROUNDS]
      · rw [h]; exact ih
    | SIMON_GAME =>
      rw [step_game P s inp hs] at hstep
      have hs' := Option.some.inj hstep
      subst hs'
      obtain ⟨_, h | h | h | h | h⟩ := gameCase_summary P s inp
      · rw [h.2.2.2.2.1]; exact ih
      · rw [h.2.2.2.2.1]; exact ih
      · rw [h.2.2.2.2.2.1]; exact ih
      · obtain ⟨_, _, hmax, _, _, hr, _⟩ := h
        rw [hr]
        unfold MAX_ROUNDS at hmax ⊢
        omega
      · rw [h.2.2.2.2.1]; exact ih
    | SIMON_WIN =>
      obtain ⟨tx, o, h⟩ := step_outcome P s inp (Or.inl hs)
      rw [h] at hstep
      rw [← Option.some.inj hstep]
      exact ih
    | SIMON_LOSE =>
      obtain ⟨tx, o, h⟩ := step_outcome P s inp (Or.inr hs)
      rw [h] at hstep
      rw [← Option.some.inj hstep]
      exact ih

/-- C11 (as stated it fails): `round1State` waits for the only input of round 1; the press of
the expected symbol 3 completes the round, so the phase becomes Displaying
(`simonSubState = 0`) while it was not before, and `playerInputIndex` is 1, not 0. -/
theorem advance_leaves_index :
    Reachable lcgBoard round1State ∧
    round1State.currentState = SIMON_GAME ∧ round1State.simonSubState = 1 ∧
    ∃ s', step lcgBoard round1State (press 3 false) = some s' ∧
      s'.currentState = SIMON_GAME ∧ s'.simonSubState = 0 ∧ s'.playerInputIndex = 1 :=
  ⟨reachable_getD_run lcgBoard startedState _ startedState_reachable, by decide, by decide,
    _, rfl, by decide, by decide, by decide⟩

/-- C11 (amended). An iteration that makes the phase Displaying (`SIMON_GAME` with
`simonSubState = 0`) from a state that was not is either the Idle-to-playing transition, and
then `playerInputIndex = 0`, or a round advance, and then `playerInputIndex` is its previous
value plus 1; in both cases the next iteration that sees no button (the one that displays the
sequence and makes the phase AwaitingInput) ends with `playerInputIndex = 0`. -/
theorem displaying_entry (P : Board G) (s s' : State G) (inp : Input)
    (hstep : step P s inp = some s')
    (hpre : ¬ (s.currentState = SIMON_GAME ∧ s.simonSubState = 0))
    (hpost : s'.currentState = SIMON_GAME ∧ s'.simonSubState = 0) :
    ((s.currentState = STATE_PLAY_SONG ∧ s'.playerInputIndex = 0) ∨
      (roundCompleted s inp ∧ s.currentRound < MAX_ROUNDS ∧
        s'.playerInputIndex = s.playerInputIndex + 1)) ∧
    ∀ inp2 : Input, inp2.gameBtn = 0 →
      ∃ s'', step P s' inp2 = some s'' ∧ s''.currentState = SIMON_GAME ∧
        s''.simonSubState = 1 ∧ s''.playerInputIndex = 0 := by
  constructor
  · cases hs : s.currentState with
    | STATE_PLAY_SONG =>
      rw [step_playSong P s inp hs] at hstep
      rcases playSongCase_cases P s s' inp hs hstep with ⟨o, h⟩ | ⟨tx, o, h⟩
      · rw [h]
        exact Or.inl ⟨rfl, rfl⟩
      · have hg := hpost.1
        rw [h] at hg
        simp only [hs] at hg
        exact absurd hg (by decide)
    | SIMON_GAME =>
      rw [step_game P s inp hs] at hstep
      have hs' := Option.some.inj hstep
      subst hs'
      have hsub : s.simonSubState ≠ 0 := fun h0 => hpre ⟨hs, h0⟩
      obtain ⟨_, h | h | h | h | h⟩ := gameCase_summary P s inp
      · exact absurd h.1 hsub
      · have := h.2.2.1
        rw [hpost.2] at this
        exact absurd this (by decide)
      · have := h.2.2.2.1
        rw [hpost.2] at this
        exact absurd this (by decide)
      · obtain ⟨ha, hle, hmax, _, hi, _⟩ := h
        exact Or.inr ⟨⟨hs, ha, hle⟩, hmax, hi⟩
      · have := h.2.2.1
        rw [hpost.2] at this
        exact absurd this.symm hsub
    | SIMON_WIN =>
      obtain ⟨tx, o, h⟩ := step_outcome P s inp (Or.inl hs)
      rw [h] at hstep
      have hg := hpost.1
      rw [← Option.some.inj hstep] at hg
      exact absurd (show STATE_PLAY_SONG = SIMON_GAME from hg) (by decide)
    | SIMON_LOSE =>
      obtain ⟨tx, o, h⟩ := step_outcome P s inp (Or.inr hs)
      rw [h] at hstep
      have hg := hpost.1
      rw [← Option.some.inj hstep] at hg
      exact absurd (show STATE_PLAY_SONG = SIMON_GAME from hg) (by decide)
  · intro inp2 hb
    obtain ⟨tx, o, h⟩ := gameCase_display P s' inp2 hpost.2 hb
    refine ⟨gameCase P s' inp2, step_game P s' inp2 hpost.1, ?_⟩
    rw [h]
    exact ⟨hpost.1, rfl, rfl⟩

/-- Witness for C11 (amended): the press that completes round 1 in `round1State`. -/
theorem displaying_entry_witness :
    ((round1State.currentState = STATE_PLAY_SONG ∧
        (gameCase lcgBoard round1State (press 3 false)).playerInputIndex = 0) ∨
      (roundCompleted round1State (press 3 false) ∧ round1State.currentRound < MAX_ROUNDS ∧
        (gameCase lcgBoard round1State (press 3 false)).playerInputIndex =
          round1State.playerInputIndex + 1)) ∧
    ∀ inp2 : Input, inp2.gameBtn = 0 →
      ∃ s'', step lcgBoard (gameCase lcgBoard round1State (press 3 false)) inp2 = some s'' ∧
        s''.currentState = SIMON_GAME ∧ s''.simonSubState = 1 ∧ s''.playerInputIndex = 0 :=
  displaying_entry lcgBoard round1State (gameCase lcgBoard round1State (press 3 false))
    (press 3 false) (step_game lcgBoard round1State (press 3 false) (by decide))
    (by decide) (by decide)

/-- C12. In every state reachable from power-on `1 ≤ currentRound ≤ MAX_ROUNDS`; and an
iteration that completes the round with `currentRound = MAX_ROUNDS` ends in `SIMON_WIN` with
`currentRound` and the whole `simonSequence` unchanged. -/
theorem round_bounded (P : Board G) (s : State G) (h : Reachable P s) :
    1 ≤ s.currentRound ∧ s.currentRound ≤ MAX_ROUNDS ∧
    ∀ inp : Input, roundCompleted s inp → s.currentRound = MAX_ROUNDS →
      ∃ s', step P s inp = some s' ∧ s'.currentState = SIMON_WIN ∧
        s'.currentRound = s.currentRound ∧ s'.simonSequence = s.simonSequence := by
  refine ⟨(index_invariant P s h).2.2.1, round_le_max P s h, ?_⟩
  intro inp hc hmax
  obtain ⟨hs, ⟨h1, hb, hp, hm⟩, hle⟩ := hc
  obtain ⟨tx, o, hg⟩ := gameCase_fresh_win P s inp h1 hb hp hm hle (by rw [hmax])
  refine ⟨gameCase P s inp, step_game P s inp hs, ?_⟩
  rw [hg]
  exact ⟨rfl, rfl, rfl⟩

/-- Witness for C12: `lastPressState`, where the tenth symbol of round 10 is awaited, and the
press of that symbol (4). -/
theorem round_bounded_witness :
    1 ≤ lastPressState.currentRound ∧ lastPressState.currentRound ≤ MAX_ROUNDS ∧
    ∃ s', step lcgBoard lastPressState (press 4 false) = some s' ∧
      s'.currentState = SIMON_WIN ∧ s'.currentRound = lastPressState.currentRound ∧
      s'.simonSequence = lastPressState.simonSequence :=
  have h := round_bounded lcgBoard lastPressState
    (reachable_getD_run lcgBoard startedState _ startedState_reachable)
  ⟨h.1, h.2.1, h.2.2 (press 4 false) (by unfold roundCompleted acceptsPress; decide)
    (by decide)⟩

/-- C20. In every state reachable from power-on that waits for input (`SIMON_GAME`,
`simonSubState = 1`), `0 ≤ playerInputIndex < currentRound ≤ MAX_ROUNDS`, so the reads
`simonSequence[playerInputIndex]` index one of the `currentRound` generated elements of the
10-element array; and when an iteration advances the round, the index `currentRound - 1` it
writes (with the new `currentRound`) lies in `0 .. MAX_ROUNDS - 1`, and no other element
changes. -/
theorem reads_in_bounds (P : Board G) (s : State G) (h : Reachable P s)
    (hg : s.currentState = SIMON_GAME) (h1 : s.simonSubState = 1) :
    0 ≤ s.playerInputIndex ∧ s.playerInputIndex < s.currentRound ∧
    s.currentRound ≤ MAX_ROUNDS ∧
    ∀ inp : Input, roundCompleted s inp → s.currentRound < MAX_ROUNDS →
      ∃ s', step P s inp = some s' ∧ s'.currentRound = s.currentRound + 1 ∧
        0 ≤ s'.currentRound - 1 ∧ s'.currentRound - 1 < MAX_ROUNDS ∧
        ∀ i : Int, i ≠ s'.currentRound - 1 → s'.simonSequence i = s.simonSequence i := by
  obtain ⟨i0, _, i2, i3⟩ := index_invariant P s h
  refine ⟨i0, i3 hg h1, round_le_max P s h, ?_⟩
  intro inp hc hmax
  obtain ⟨hs, ⟨_, hb, hp, hm⟩, hle⟩ := hc
  obtain ⟨tx, o, hgc⟩ := gameCase_fresh_advance P s inp h1 hb hp hm hle hmax
  refine ⟨gameCase P s inp, step_game P s inp hs, ?_⟩
  rw [hgc, timeoutUpdate_eq]
  refine ⟨rfl, ?_, ?_, ?_⟩
  · simp only; omega
  · simp only; omega
  · intro i hi
    have hi' : i ≠ s.currentRound := by
      intro e
      apply hi
      simp only
      omega
    simp only
    exact Function.update_noteq hi' _ _

/-- Witness for C20: `round1State` and the press that completes round 1. -/
theorem reads_in_bounds_witness :
    0 ≤ round1State.playerInputIndex ∧
    round1State.playerInputIndex < round1State.currentRound ∧
    round1State.currentRound ≤ MAX_ROUNDS ∧
    ∃ s', step lcgBoard round1State (press 3 false) = some s' ∧
      s'.currentRound = round1State.currentRound + 1 ∧
      0 ≤ s'.currentRound - 1 ∧ s'.currentRound - 1 < MAX_ROUNDS ∧
      ∀ i : Int, i ≠ s'.currentRound - 1 →
        s'.simonSequence i = round1State.simonSequence i :=
  have h := reads_in_bounds lcgBoard round1State
    (reachable_getD_run lcgBoard startedState _ startedState_reachable) (by decide)
    (by decide)
  ⟨h.1, h.2.1, h.2.2.1, h.2.2.2 (press 3 false)
    (by unfold roundCompleted acceptsPress; decide) (by decide)⟩

/-! ### The power-on animation -/

theorem pattern_invariant (P : Board G) (s : State G) (h : Reachable P s) :
    s.powerOnPattern = 1 ∨ s.powerOnPattern = 2 ∨ s.powerOnPattern = 3 := by
  induction h with
  | init => exact Or.inl rfl
  | @next s s' inp _ hstep ih =>
    cases hs : s.currentState with
    | STATE_PLAY_SONG =>
      rw [step_playSong P s inp hs] at hstep
      rcases playSongCase_cases P s s' inp hs hstep with ⟨o, h⟩ | ⟨tx, o, h⟩
      · rw [h]; exact ih
      · rw [h]
        rcases ih with e | e | e <;> simp only [e] <;> decide
    | SIMON_GAME =>
      rw [step_game P s inp hs] at hstep
      rw [← Option.some.inj hstep, gameCase_keeps]
      exact ih
    | SIMON_WIN =>
      obtain ⟨tx, o, h⟩ := step_outcome P s inp (Or.inl hs)
      rw [h] at hstep
      rw [← Option.some.inj hstep]
      exact ih
    | SIMON_LOSE =>
      obtain ⟨tx, o, h⟩ := step_outcome P s inp (Or.inr hs)
      rw [h] at hstep
      rw [← Option.some.inj hstep]
      exact ih

theorem idle_step_pattern (P : Board G) (s : State G) (inp : Input)
    (hs : s.currentState = STATE_PLAY_SONG) (hb : inp.btn = 0) :
    ∃ s', step P s inp = some s' ∧ s'.currentState = STATE_PLAY_SONG ∧
      s'.powerOnPattern = Int.tmod s.powerOnPattern 3 + 1 := by
  obtain ⟨tx, o, h⟩ := playSongCase_idle P s inp (by rw [hs]; decide) hb
  exact ⟨_, (step_playSong P s inp hs).trans h, hs, rfl⟩

theorem tmod_next (p : Int) (h : p = 1 ∨ p = 2 ∨ p = 3) :
    Int.tmod p 3 + 1 = nextPattern p ∧
      (nextPattern p = 1 ∨ nextPattern p = 2 ∨ nextPattern p = 3) := by
  rcases h with e | e | e <;> subst e <;> decide

/-- C19. Idle pattern round-robin: `powerOnPattern` is 1 at power-on and lies in `{1, 2, 3}`
in every reachable state, so the read `patternTones[powerOnPattern]` is inside the 4-element
table; an iteration of the power-on animation in which no button is seen maps the index
1 to 2, 2 to 3 and 3 to 1, and three such iterations in a row bring it back. -/
theorem pattern_round_robin (P : Board G) (s : State G) (h : Reachable P s) :
    (powerOn P).powerOnPattern = 1 ∧
    (s.powerOnPattern = 1 ∨ s.powerOnPattern = 2 ∨ s.powerOnPattern = 3) ∧
    s.powerOnPattern.toNat < patternTones.length ∧
    (s.currentState = STATE_PLAY_SONG →
      (∀ inp : Input, noButtonSeen inp →
        ∃ s', step P s inp = some s' ∧ s'.powerOnPattern = nextPattern s.powerOnPattern) ∧
      (∀ i1 i2 i3 : Input, noButtonSeen i1 → noButtonSeen i2 → noButtonSeen i3 →
        ∃ s', run P s [i1, i2, i3] = some s' ∧ s'.powerOnPattern = s.powerOnPattern)) := by
  have hp := pattern_invariant P s h
  refine ⟨rfl, hp, ?_, fun hs => ⟨?_, ?_⟩⟩
  · rcases hp with e | e | e <;> rw [e] <;> decide
  · intro inp hn
    obtain ⟨s', h1, _, h3⟩ := idle_step_pattern P s inp hs hn.1
    exact ⟨s', h1, by rw [h3, (tmod_next _ hp).1]⟩
  · intro i1 i2 i3 n1 n2 n3
    obtain ⟨s1, a1, b1, c1⟩ := idle_step_pattern P s i1 hs n1.1
    obtain ⟨s2, a2, b2, c2⟩ := idle_step_pattern P s1 i2 b1 n2.1
    obtain ⟨s3, a3, _, c3⟩ := idle_step_pattern P s2 i3 b2 n3.1
    refine ⟨s3, by simp [run, a1, a2, a3], ?_⟩
    rw [c3, c2, c1]
    rcases hp with e | e | e <;> rw [e] <;> decide

/-- Witness for C19: the power-on state and three iterations without a button. -/
theorem pattern_round_robin_witness :
    (powerOn lcgBoard).powerOnPattern = 1 ∧
    ((powerOn lcgBoard).powerOnPattern = 1 ∨ (powerOn lcgBoard).powerOnPattern = 2 ∨
      (powerOn lcgBoard).powerOnPattern = 3) ∧
    (powerOn lcgBoard).powerOnPattern.toNat < patternTones.length ∧
    (∃ s', step lcgBoard (powerOn lcgBoard) (noPress false) = some s' ∧
      s'.powerOnPattern = nextPattern (powerOn lcgBoard).powerOnPattern) ∧
    (∃ s', run lcgBoard (powerOn lcgBoard) [noPress false, noPress true, noPress false]
        = some s' ∧ s'.powerOnPattern = (powerOn lcgBoard).powerOnPattern) :=
  have h := pattern_round_robin lcgBoard (powerOn lcgBoard) Reachable.init
  ⟨h.1, h.2.1, h.2.2.1, (h.2.2.2 rfl).1 (noPress false) ⟨rfl, rfl, rfl⟩,
    (h.2.2.2 rfl).2 (noPress false) (noPress true) (noPress false) ⟨rfl, rfl, rfl⟩
      ⟨rfl, rfl, rfl⟩ ⟨rfl, rfl, rfl⟩⟩

/-- C16. Idle with no input stays idle: an iteration of the power-on animation in which no
read of the buttons sees a press leaves `currentState = STATE_PLAY_SONG` and leaves
`currentRound`, `playerInputIndex`, `simonSubState`, `inputTimeoutCounter`, `simonSequence`,
`simon_prevButton` and the generator state unchanged; `randVal` becomes
`(randVal + 1) mod 2 ^ 32` and the idle pattern index takes the next value
`(powerOnPattern % 3) + 1`. -/
theorem idle_stays_idle (P : Board G) (s : State G) (inp : Input)
    (hs : s.currentState = STATE_PLAY_SONG) (hn : noButtonSeen inp) :
    ∃ s', step P s inp = some s' ∧ s'.currentState = STATE_PLAY_SONG ∧
      s'.currentRound = s.currentRound ∧ s'.playerInputIndex = s.playerInputIndex ∧
      s'.simonSubState = s.simonSubState ∧
      s'.inputTimeoutCounter = s.inputTimeoutCounter ∧
      s'.simonSequence = s.simonSequence ∧ s'.simon_prevButton = s.simon_prevButton ∧
      s'.rng = s.rng ∧ s'.randVal = (s.randVal + 1) % 2 ^ 32 ∧
      s'.powerOnPattern = Int.tmod s.powerOnPattern 3 + 1 := by
  obtain ⟨tx, o, h⟩ := playSongCase_idle P s inp (by rw [hs]; decide) hn.1
  exact ⟨_, (step_playSong P s inp hs).trans h, hs, rfl, rfl, rfl, rfl, rfl, rfl, rfl, rfl,
    rfl⟩

/-- Witness for C16: the first iteration after power-on, with no button. -/
theorem idle_stays_idle_witness :
    ∃ s', step lcgBoard (powerOn lcgBoard) (noPress true) = some s' ∧
      s'.currentState = STATE_PLAY_SONG ∧
      s'.currentRound = (powerOn lcgBoard).currentRound ∧
      s'.playerInputIndex = (powerOn lcgBoard).playerInputIndex ∧
      s'.simonSubState = (powerOn lcgBoard).simonSubState ∧
      s'.inputTimeoutCounter = (powerOn lcgBoard).inputTimeoutCounter ∧
      s'.simonSequence = (powerOn lcgBoard).simonSequence ∧
      s'.simon_prevButton = (powerOn lcgBoard).simon_prevButton ∧
      s'.rng = (powerOn lcgBoard).rng ∧
      s'.randVal = ((powerOn lcgBoard).randVal + 1) % 2 ^ 32 ∧
      s'.powerOnPattern = Int.tmod (powerOn lcgBoard).powerOnPattern 3 + 1 :=
  idle_stays_idle lcgBoard (powerOn lcgBoard) (noPress true) rfl ⟨rfl, rfl, rfl⟩

/-! ### Reading the buttons -/

theorem and_two_pow_ne_zero (d k : Nat) : d &&& 2 ^ k ≠ 0 ↔ d.testBit k = true := by
  rw [Nat.and_two_pow]
  cases h : d.testBit k <;> simp

/-- C13. Button priority: for every input word `d` and single-bit masks `SWi = 2 ^ ki`
(active low), `checkButtons` returns the least `i` in 1..4 with `d & SWi = 0`, returns 0
exactly when all four masked bits are set, and its result is at most 4. -/
theorem button_priority (k1 k2 k3 k4 d : Nat) :
    checkButtons (2 ^ k1) (2 ^ k2) (2 ^ k3) (2 ^ k4) d ≤ 4 ∧
    (checkButtons (2 ^ k1) (2 ^ k2) (2 ^ k3) (2 ^ k4) d = 1 ↔ d &&& 2 ^ k1 = 0) ∧
    (checkButtons (2 ^ k1) (2 ^ k2) (2 ^ k3) (2 ^ k4) d = 2 ↔
      d &&& 2 ^ k1 ≠ 0 ∧ d &&& 2 ^ k2 = 0) ∧
    (checkButtons (2 ^ k1) (2 ^ k2) (2 ^ k3) (2 ^ k4) d = 3 ↔
      d &&& 2 ^ k1 ≠ 0 ∧ d &&& 2 ^ k2 ≠ 0 ∧ d &&& 2 ^ k3 = 0) ∧
    (checkButtons (2 ^ k1) (2 ^ k2) (2 ^ k3) (2 ^ k4) d = 4 ↔
      d &&& 2 ^ k1 ≠ 0 ∧ d &&& 2 ^ k2 ≠ 0 ∧ d &&& 2 ^ k3 ≠ 0 ∧ d &&& 2 ^ k4 = 0) ∧
    (checkButtons (2 ^ k1) (2 ^ k2) (2 ^ k3) (2 ^ k4) d = 0 ↔
      d.testBit k1 = true ∧ d.testBit k2 = true ∧ d.testBit k3 = true ∧
        d.testBit k4 = true) := by
  simp only [← and_two_pow_ne_zero]
  unfold checkButtons
  by_cases h1 : d &&& 2 ^ k1 = 0
  · simp [h1]
  · by_cases h2 : d &&& 2 ^ k2 = 0
    · simp [h1, h2]
    · by_cases h3 : d &&& 2 ^ k3 = 0
      · simp [h1, h2, h3]
      · by_cases h4 : d &&& 2 ^ k4 = 0
        · simp [h1, h2, h3, h4]
        · simp [h1, h2, h3, h4]

/-! ### The traces of the rendering code -/

theorem flashButton_out (P : Board G) (btn d : Int) (s : State G) :
    (flashButton P btn d s).out = s.out ++ flashEvents P btn d s.txMessage ∧
    (flashButton P btn d s).txMessage = P.generateTxPacket btn s.txMessage ∧
    (flashButton P btn d s).simonSequence = s.simonSequence := by
  unfold flashButton flashEvents setTone startSPITransmission enableBuzzer waitForTicks
  split_ifs <;> simp

theorem flashEvents_tail (P : Board G) (btn d : Int) (tx : List Nat) :
    ∃ ev, flashEvents P btn d tx = ev ++ [Out.enableBuzzer 0,
      Out.startSPITransmission offTxPacket, Out.waitForTicks PAUSE_TICKS 0 0] := by
  unfold flashEvents
  split_ifs
  · exact ⟨[Out.setTone (tones.getD btn.toNat 0),
      Out.startSPITransmission (P.generateTxPacket btn tx), Out.enableBuzzer 1,
      Out.waitForTicks d 0 0], rfl⟩
  · exact ⟨[Out.startSPITransmission (P.generateTxPacket btn tx), Out.enableBuzzer 1,
      Out.waitForTicks d 0 0], rfl⟩

/-- C17. Feedback render ends all-off: the calls that `flashButton(btn, d)` adds to the trace
end with `enableBuzzer(0)`, the transmission of `offTxPacket` and a wait of `PAUSE_TICKS` (10)
ticks, so the last frame sent is the all-off frame and the buzzer is off; for `btn` in 1..4
the only tone set is `tones[btn]` (5101, 6063, 7643, 10206, pairwise distinct), and for any
other `btn` no tone is set. -/
theorem flash_ends_all_off (P : Board G) (btn d : Int) (s : State G) :
    (flashButton P btn d s).out = s.out ++ flashEvents P btn d s.txMessage ∧
    (∃ ev, flashEvents P btn d s.txMessage = ev ++ [Out.enableBuzzer 0,
      Out.startSPITransmission offTxPacket, Out.waitForTicks PAUSE_TICKS 0 0]) ∧
    PAUSE_TICKS = 10 ∧
    lastFrame (flashEvents P btn d s.txMessage) = some offTxPacket ∧
    lastBuzzer (flashEvents P btn d s.txMessage) = some 0 ∧
    (btn = 1 → tonesSet (flashEvents P btn d s.txMessage) = [5101]) ∧
    (btn = 2 → tonesSet (flashEvents P btn d s.txMessage) = [6063]) ∧
    (btn = 3 → tonesSet (flashEvents P btn d s.txMessage) = [7643]) ∧
    (btn = 4 → tonesSet (flashEvents P btn d s.txMessage) = [10206]) ∧
    (¬ (1 ≤ btn ∧ btn ≤ 4) → tonesSet (flashEvents P btn d s.txMessage) = []) ∧
    (tones.drop 1).Nodup := by
  refine ⟨(flashButton_out P btn d s).1, flashEvents_tail P btn d s.txMessage, rfl, ?_, ?_,
    ?_, ?_, ?_, ?_, ?_, by decide⟩
  · unfold flashEvents
    split_ifs <;> rfl
  · unfold flashEvents
    split_ifs <;> rfl
  · intro e; subst e; rfl
  · intro e; subst e; rfl
  · intro e; subst e; rfl
  · intro e; subst e; rfl
  · intro hn
    unfold flashEvents
    rw [if_neg hn]
    rfl

theorem foldl_flash_out (P : Board G) : ∀ (l : List Nat) (s : State G),
    (l.foldl (fun (s : State G) (i : Nat) => flashButton P (s.simonSequence (i : Int)) 50 s)
        s).out = s.out ++ displayEvents P s.simonSequence l s.txMessage
  | [], s => by simp [displayEvents]
  | i :: l, s => by
    obtain ⟨h1, h2, h3⟩ := flashButton_out P (s.simonSequence (i : Int)) 50 s
    rw [List.foldl_cons, foldl_flash_out P l, h1, h2, h3]
    simp [displayEvents, List.append_assoc]

/-- C15. Displaying to AwaitingInput: in `SIMON_GAME` with `simonSubState = 0` and
`currentRound = r`, an iteration that sees no button adds to the trace exactly the calls of
`flashButton(simonSequence[i], 50)` for `i = 0, 1, ..., r - 1` in that order, each once, and
ends with `simonSubState = 1`, `playerInputIndex = 0`, `inputTimeoutCounter = 0` and
`simon_prevButton = 0`, with `currentRound` and `simonSequence` unchanged. -/
theorem display_then_await (P : Board G) (s : State G) (inp : Input)
    (hs : s.currentState = SIMON_GAME) (h0 : s.simonSubState = 0)
    (hb : inp.gameBtn = 0) :
    ∃ s', step P s inp = some s' ∧
      s'.out = s.out ++
        displayEvents P s.simonSequence (List.range s.currentRound.toNat) s.txMessage ∧
      s'.currentState = SIMON_GAME ∧ s'.simonSubState = 1 ∧ s'.playerInputIndex = 0 ∧
      s'.inputTimeoutCounter = 0 ∧ s'.simon_prevButton = 0 ∧
      s'.currentRound = s.currentRound ∧ s'.simonSequence = s.simonSequence := by
  refine ⟨gameCase P s inp, step_game P s inp hs, ?_⟩
  have hout : (gameCase P s inp).out = (displaySequence P s).out := by
    simp [gameCase, h0, hb]
  obtain ⟨tx, o, h⟩ := gameCase_display P s inp h0 hb
  refine ⟨?_, ?_⟩
  · rw [hout]
    exact foldl_flash_out P _ s
  · rw [h]
    exact ⟨hs, rfl, rfl, rfl, rfl, rfl, rfl⟩

/-- Witness for C15: the display of round 2 (symbols 3, 4) on `lcgBoard`. -/
theorem display_then_await_witness :
    ∃ s', step lcgBoard displayState (noPress false) = some s' ∧
      s'.out = displayState.out ++
        displayEvents lcgBoard displayState.simonSequence
          (List.range displayState.currentRound.toNat) displayState.txMessage ∧
      s'.currentState = SIMON_GAME ∧ s'.simonSubState = 1 ∧ s'.playerInputIndex = 0 ∧
      s'.inputTimeoutCounter = 0 ∧ s'.simon_prevButton = 0 ∧
      s'.currentRound = displayState.currentRound ∧
      s'.simonSequence = displayState.simonSequence :=
  display_then_await lcgBoard displayState (noPress false) (by decide) (by decide) rfl

theorem animationFrame_eq (isWin : Int) (tx : List Nat) (h : tx.length = 12) :
    animationFrame isWin tx = outcomeFrame isWin := by
  obtain ⟨a0, t0, rfl⟩ := List.exists_of_length_succ tx h
  obtain ⟨a1, t1, rfl⟩ := List.exists_of_length_succ t0 (Nat.succ.inj h)
  obtain ⟨a2, t2, rfl⟩ := List.exists_of_length_succ t1 (by simpa using h)
  obtain ⟨a3, t3, rfl⟩ := List.exists_of_length_succ t2 (by simpa using h)
  obtain ⟨a4, t4, rfl⟩ := List.exists_of_length_succ t3 (by simpa using h)
  obtain ⟨a5, t5, rfl⟩ := List.exists_of_length_succ t4 (by simpa using h)
  obtain ⟨a6, t6, rfl⟩ := List.exists_of_length_succ t5 (by simpa using h)
  obtain ⟨a7, t7, rfl⟩ := List.exists_of_length_succ t6 (by simpa using h)
  obtain ⟨a8, t8, rfl⟩ := List.exists_of_length_succ t7 (by simpa using h)
  obtain ⟨a9, t9, rfl⟩ := List.exists_of_length_succ t8 (by simpa using h)
  obtain ⟨a10, t10, rfl⟩ := List.exists_of_length_succ t9 (by simpa using h)
  obtain ⟨a11, t11, rfl⟩ := List.exists_of_length_succ t10 (by simpa using h)
  have hnil : t11 = [] := List.length_eq_zero.mp (by simpa using h)
  subst hnil
  unfold animationFrame outcomeFrame
  by_cases hw : isWin ≠ 0
  · simp only [if_pos hw, List.range, List.range.loop, List.foldl]
    rfl
  · simp only [if_neg hw, List.range, List.range.loop, List.foldl]
    rfl

theorem outcomeFrame_length (isWin : Int) : (outcomeFrame isWin).length = 12 := rfl

theorem animationPass_out (isWin : Int) (s : State G) (h : s.txMessage.length = 12) :
    animationPass isWin s =
      { s with txMessage := outcomeFrame isWin, out := s.out ++ animationEvents isWin } := by
  unfold animationPass setTone startSPITransmission enableBuzzer waitForTicks animationEvents
  simp only [animationFrame_eq isWin s.txMessage h]
  split_ifs <;> simp

/-- C14. Outcome states return to idle: in `SIMON_WIN` or `SIMON_LOSE`, whatever the inputs,
one iteration adds to the trace exactly three repetitions of the outcome animation (each: the
outcome tone is set, the buzzer is switched on, a frame whose four LED slots carry the same
colour word pair is sent, 50 ticks pass, the buzzer is switched off, the all-off frame is
sent, 10 ticks pass) and ends with `currentState = STATE_PLAY_SONG`, leaving `currentRound`,
`playerInputIndex` and `simonSequence` unchanged. `txMessage` is the 12-word array of the
source. -/
theorem outcome_returns_to_idle (P : Board G) (s : State G) (inp : Input)
    (hs : s.currentState = SIMON_WIN ∨ s.currentState = SIMON_LOSE)
    (htx : s.txMessage.length = 12) :
    ∃ s', step P s inp = some s' ∧
      s'.out = s.out ++
        (animationEvents (if s.currentState = SIMON_WIN then 1 else 0) ++
          animationEvents (if s.currentState = SIMON_WIN then 1 else 0) ++
          animationEvents (if s.currentState = SIMON_WIN then 1 else 0)) ∧
      (∃ a b : Nat, outcomeFrame (if s.currentState = SIMON_WIN then 1 else 0) =
          [0, 0, a, b, a, b, a, b, a, b, 65535, 65535] ∧
        (a, b) = if s.currentState = SIMON_WIN then (0xE5F0, 0x1010) else (0xE510, 0x10F0)) ∧
      s'.currentState = STATE_PLAY_SONG ∧ s'.currentRound = s.currentRound ∧
      s'.playerInputIndex = s.playerInputIndex ∧ s'.simonSequence = s.simonSequence := by
  have key : ∀ w : Int, playAnimation w s =
      { s with txMessage := outcomeFrame w,
               out := s.out ++ (animationEvents w ++ animationEvents w ++ animationEvents w),
               currentState := STATE_PLAY_SONG } := by
    intro w
    unfold playAnimation
    simp only [List.range, List.range.loop, List.foldl]
    have h1 := animationPass_out w s htx
    have h2 := animationPass_out w
      { s with txMessage := outcomeFrame w, out := s.out ++ animationEvents w }
      (outcomeFrame_length w)
    have h3 := animationPass_out w
      { s with txMessage := outcomeFrame w,
               out := s.out ++ animationEvents w ++ animationEvents w }
      (outcomeFrame_length w)
    rw [h1, h2, h3]
    simp [List.append_assoc]
  have hne : ¬ (SIMON_LOSE = SIMON_WIN) := by decide
  rcases hs with hs | hs
  · refine ⟨playAnimation 1 s, by simp [step, hs], ?_⟩
    rw [key 1]
    refine ⟨by simp [hs], ⟨0xE5F0, 0x1010, ?_⟩, rfl, rfl, rfl, rfl⟩
    simp [hs, outcomeFrame, onTxPacket]
  · refine ⟨playAnimation 0 s, by simp [step, hs], ?_⟩
    rw [key 0]
    refine ⟨by simp [hs, hne], ⟨0xE510, 0x10F0, ?_⟩, rfl, rfl, rfl, rfl⟩
    simp [hs, hne, outcomeFrame, onTxPacket]

/-- Witness for C14: the state in which the winning run on `lcgBoard` ends. -/
theorem outcome_returns_to_idle_witness :
    ∃ s', step lcgBoard wonState (noPress false) = some s' ∧
      s'.out = wonState.out ++
        (animationEvents (if wonState.currentState = SIMON_WIN then 1 else 0) ++
          animationEvents (if wonState.currentState = SIMON_WIN then 1 else 0) ++
          animationEvents (if wonState.currentState = SIMON_WIN then 1 else 0)) ∧
      (∃ a b : Nat, outcomeFrame (if wonState.currentState = SIMON_WIN then 1 else 0) =
          [0, 0, a, b, a, b, a, b, a, b, 65535, 65535] ∧
        (a, b) = if wonState.currentState = SIMON_WIN then (0xE5F0, 0x1010)
          else (0xE510, 0x10F0)) ∧
      s'.currentState = STATE_PLAY_SONG ∧ s'.currentRound = wonState.currentRound ∧
      s'.playerInputIndex = wonState.playerInputIndex ∧
      s'.simonSequence = wonState.simonSequence :=
  outcome_returns_to_idle lcgBoard wonState (noPress false) (Or.inl (by decide)) (by decide)

/-! ### The tick update -/

/-- C18 (as stated it fails): in `round5State` the fifth symbol of round 5 (3) is awaited and
the timeout counter is 1; a fresh press of button 1 is rejected while a tick is pending, and
the iteration leaves the counter at 1 instead of incrementing it, and leaves the tick flag
set instead of clearing it. -/
theorem rejected_press_skips_tick :
    Reachable lcgBoard round5State ∧
    round5State.currentState = SIMON_GAME ∧ round5State.simonSubState = 1 ∧
    round5State.inputTimeoutCounter = 1 ∧ (press 1 true).tick = true ∧
    ∃ s', step lcgBoard round5State (press 1 true) = some s' ∧
      s'.currentState = SIMON_LOSE ∧ s'.inputTimeoutCounter = 1 ∧ s'.timerTicked = true :=
  ⟨reachable_getD_run lcgBoard startedState _ startedState_reachable, by decide, by decide,
    by decide, rfl, _, rfl, by decide, by decide, by decide⟩

/-- C18 (amended). Tick consumption in an input-waiting state: when the iteration does not
leave through a `break` that ends the game (no press, accepted press short of the win, held
press, changed press that matches), the timeout counter becomes its value after any reset by
an accepted input plus 1 if a tick is pending and plus 0 if none is, and the tick flag is
cleared; when the iteration ends the game through a rejected press or the winning press, the
tick update is not reached: the counter is not incremented and the flag is not cleared, it
keeps the value `inp.tick` the interrupt handler gave it, so a pending tick stays pending. -/
theorem tick_update (P : Board G) (s : State G) (inp : Input)
    (hs : s.currentState = SIMON_GAME) (h1 : s.simonSubState = 1) :
    ∃ s', step P s inp = some s' ∧
      (¬ endsGame s inp →
        (acceptsPress s inp → s'.inputTimeoutCounter = 0 + tickVal inp) ∧
        (¬ acceptsPress s inp →
          s'.inputTimeoutCounter = s.inputTimeoutCounter + tickVal inp) ∧
        s'.timerTicked = false) ∧
      (endsGame s inp →
        (acceptsPress s inp → s'.inputTimeoutCounter = 0) ∧
        (¬ acceptsPress s inp → s'.inputTimeoutCounter = s.inputTimeoutCounter) ∧
        s'.timerTicked = inp.tick ∧
        (s'.currentState = SIMON_LOSE ∨ s'.currentState = SIMON_WIN)) := by
  refine ⟨gameCase P s inp, step_game P s inp hs, ?_⟩
  by_cases hb : inp.gameBtn = 0
  · have hna : ¬ acceptsPress s inp := fun ha => ha.2.1 hb
    have hne : ¬ endsGame s inp := fun he => he.1 hb
    rw [gameCase_none P s inp h1 hb, timeoutUpdate_tickVal]
    exact ⟨fun _ => ⟨fun ha => absurd ha hna, fun _ => rfl, rfl⟩, fun he => absurd he hne⟩
  · by_cases hp : s.simon_prevButton = 0
    · by_cases hm : (inp.gameBtn : Int) = s.simonSequence s.playerInputIndex
      · have ha : acceptsPress s inp := ⟨h1, hb, hp, hm⟩
        by_cases hr : s.currentRound ≤ s.playerInputIndex + 1
        · by_cases hmax : s.currentRound < MAX_ROUNDS
          · have hne : ¬ endsGame s inp := by
              rintro ⟨_, ⟨_, hw⟩ | ⟨_, _, hge⟩⟩
              · exact hw hm
              · omega
            obtain ⟨tx, o, h⟩ := gameCase_fresh_advance P s inp h1 hb hp hm hr hmax
            rw [h, timeoutUpdate_tickVal]
            exact ⟨fun _ => ⟨fun _ => rfl, fun hn => absurd ha hn, rfl⟩, fun he => absurd he hne⟩
          · have he : endsGame s inp := ⟨hb, Or.inr ⟨ha, hr, not_lt.mp hmax⟩⟩
            obtain ⟨tx, o, h⟩ := gameCase_fresh_win P s inp h1 hb hp hm hr (not_lt.mp hmax)
            rw [h]
            exact ⟨fun hne => absurd he hne,
              fun _ => ⟨fun _ => rfl, fun hn => absurd ha hn, rfl, Or.inr rfl⟩⟩
        · have hne : ¬ endsGame s inp := by
            rintro ⟨_, ⟨_, hw⟩ | ⟨_, hle, _⟩⟩
            · exact hw hm
            · exact hr hle
          obtain ⟨tx, o, h⟩ := gameCase_fresh_accept P s inp h1 hb hp hm (not_le.mp hr)
          rw [h, timeoutUpdate_tickVal]
          exact ⟨fun _ => ⟨fun _ => rfl, fun hn => absurd ha hn, rfl⟩, fun he => absurd he hne⟩
      · have hna : ¬ acceptsPress s inp := fun ha => hm ha.2.2.2
        have he : endsGame s inp := ⟨hb, Or.inl ⟨Or.inl hp, hm⟩⟩
        obtain ⟨tx, o, h⟩ := gameCase_fresh_wrong P s inp h1 hb hp hm
        rw [h]
        exact ⟨fun hne => absurd he hne,
          fun _ => ⟨fun ha => absurd ha hna, fun _ => rfl, rfl, Or.inl rfl⟩⟩
    · have hna : ¬ acceptsPress s inp := fun ha => hp ha.2.2.1
      by_cases hc : (inp.gameBtn : Int) = s.simon_prevButton
      · have hne : ¬ endsGame s inp := by
          rintro ⟨_, ⟨h0 | hne, _⟩ | ⟨ha, _, _⟩⟩
          · exact hp h0
          · exact hne hc
          · exact hna ha
        rw [gameCase_held P s inp h1 hb hc, timeoutUpdate_tickVal]
        exact ⟨fun _ => ⟨fun ha => absurd ha hna, fun _ => rfl, rfl⟩, fun he => absurd he hne⟩
      · by_cases hm : (inp.gameBtn : Int) = s.simonSequence s.playerInputIndex
        · have hne : ¬ endsGame s inp := by
            rintro ⟨_, ⟨_, hw⟩ | ⟨ha, _, _⟩⟩
            · exact hw hm
            · exact hna ha
          obtain ⟨tx, o, h⟩ := gameCase_changed_match P s inp h1 hb hp hc hm
          rw [h, timeoutUpdate_tickVal]
          exact ⟨fun _ => ⟨fun ha => absurd ha hna, fun _ => rfl, rfl⟩, fun he => absurd he hne⟩
        · have he : endsGame s inp := ⟨hb, Or.inl ⟨Or.inr hc, hm⟩⟩
          obtain ⟨tx, o, h⟩ := gameCase_changed_wrong P s inp h1 hb hp hc hm
          rw [h]
          exact ⟨fun hne => absurd he hne,
          fun _ => ⟨fun ha => absurd ha hna, fun _ => rfl, rfl, Or.inl rfl⟩⟩

/-- Witness for C18 (amended): in `round5State` a pending tick is counted and cleared when no
button is pressed, and stays pending, uncounted, when button 1 is rejected. -/
theorem tick_update_witness :
    (∃ s', step lcgBoard round5State (noPress true) = some s' ∧
      s'.inputTimeoutCounter = round5State.inputTimeoutCounter + tickVal (noPress true) ∧
      s'.timerTicked = false) ∧
    (∃ s', step lcgBoard round5State (press 1 true) = some s' ∧
      s'.inputTimeoutCounter = round5State.inputTimeoutCounter ∧
      s'.timerTicked = (press 1 true).tick ∧
      (s'.currentState = SIMON_LOSE ∨ s'.currentState = SIMON_WIN)) := by
  obtain ⟨s1, a1, b1, _⟩ := tick_update lcgBoard round5State (noPress true) (by decide)
    (by decide)
  obtain ⟨s2, a2, _, c2⟩ := tick_update lcgBoard round5State (press 1 true) (by decide)
    (by decide)
  have hna1 : ¬ acceptsPress round5State (noPress true) := by
    unfold acceptsPress; decide
  have hne1 : ¬ endsGame round5State (noPress true) := by
    unfold endsGame acceptsPress; decide
  have hna2 : ¬ acceptsPress round5State (press 1 true) := by
    unfold acceptsPress; decide
  have he2 : endsGame round5State (press 1 true) := by
    unfold endsGame acceptsPress; decide
  have r1 := b1 hne1
  have r2 := c2 he2
  exact ⟨⟨s1, a1, r1.2.1 hna1, r1.2.2⟩, ⟨s2, a2, r2.2.1 hna2, r2.2.2.1, r2.2.2.2⟩⟩

end Simon
